import Mathlib

/-!
# Verification of the `ashaduri/csv-parser` CSV parsing library

Shallow embedding of the library (`src/csv_parser/*.h`) in Lean 4:

* `Csv.parse` embeds `Parser::parse` (csv_parser.h, lines 277-478), the
  character-level tokenizing state machine.  The C++ loop walks an index
  `pos` over `data` with single-character lookahead; here the remaining
  input is a `List Char` and the two-character consumptions (CRLF, escaped
  quote pairs) are nested list patterns.  `std::string_view current_value`
  is always a contiguous span whose characters are exactly the ones the
  machine appended (`restartCurrentValue` / `increaseCurrentValueSize`),
  so it is embedded as the accumulated `List Char`.
* `Csv.cleanString` embeds `cleanString` (csv_util.h, lines 48-60).
* `Csv.readNumberF` / `Csv.readNumberI` embed `readNumber<Number>`
  (csv_util.h, lines 64-119) for the floating-point targets
  (`std::stod` family) and the integer targets (`std::stoi` family).
* `Csv.CellReference.make` / `Csv.CellValue.make` embed the constructors
  in csv_cell.h (lines 384-407 and 471-494).
* `Csv.prepareBuffer` embeds `CellStringBuffer::prepareBuffer`
  (csv_cell.h, lines 345-360).
* `Csv.parseTo2DVectorRun`, `Csv.parseToVectorRowMajorRun` and
  `Csv.parseToVectorColumnMajorRun` embed the assembly wrappers
  (csv_parser.h, lines 484-501, 536-590, 596-629).

Exceptions thrown by the C++ code are embedded as explicit error results;
the sink calls of `parse` are embedded as an accumulated list of emitted
cells (the error outcome keeps the cells emitted before the throw).
-/

namespace Csv

/-- Embeds `enum class CellTypeHint` (csv_cell.h, lines 25-30). -/
inductive CellTypeHint where
  | Empty
  | StringWithEscapedQuotes
  | StringWithoutEscapedQuotes
  | UnquotedData
deriving DecidableEq, Repr

/-- Embeds `enum class CellType` (csv_cell.h, lines 34-38). -/
inductive CellType where
  | Empty
  | Double
  | String
deriving DecidableEq, Repr

/-- Embeds `enum class MachineState` (csv_parser.h, lines 174-180). -/
inductive MachineState where
  | AtCellStart
  | InLeadingWhiteSpace
  | InsideUnquotedValue
  | InsideQuotedValue
  | AfterQuotedValue
deriving DecidableEq, Repr

/-- One sink invocation `storeCellFunc(row, column, cell_data, hint)`
made by `Parser::parse`. -/
structure Cell where
  row : Nat
  column : Nat
  text : List Char
  hint : CellTypeHint
deriving DecidableEq, Repr

/-- Embeds `ParseError` (csv_error.h, lines 25-63): the 0-based row and
column carried by the exception. -/
structure ParseErr where
  row : Nat
  column : Nat
deriving DecidableEq, Repr

/-- Result of a `Parser::parse` call: normal return with the list of sink
calls made, or a thrown `ParseError` together with the sink calls made
before the throw. -/
inductive ParseOutcome where
  | ok (cells : List Cell)
  | err (e : ParseErr) (emitted : List Cell)
deriving DecidableEq, Repr

/-- The cells handed to the sink, for either outcome. -/
def ParseOutcome.cells : ParseOutcome → List Cell
  | .ok cells => cells
  | .err _ emitted => emitted

/-- The thrown error, if any. -/
def ParseOutcome.error : ParseOutcome → Option ParseErr
  | .ok _ => none
  | .err e _ => some e

/-- Embeds `Parser::store` (csv_parser.h, lines 256-264): the
`BehaviorPolicy::useEmptyCellType()` toggle downgrades the `Empty` hint to
`StringWithoutEscapedQuotes` at emission time, then the sink is called.
Both built-in policies return `true` (csv_policies.h); the parameter
`useEmpty` stands for the policy's value. -/
def storeCell (useEmpty : Bool) (acc : List Cell) (row column : Nat)
    (text : List Char) (hint : CellTypeHint) : List Cell :=
  let hint := if hint = CellTypeHint.Empty ∧ useEmpty = false then
      CellTypeHint.StringWithoutEscapedQuotes
    else hint
  acc ++ [⟨row, column, text, hint⟩]

/-- Embeds the `for` loop of `Parser::parse` (csv_parser.h, lines 281-477).
Arguments mirror `ParserState`: machine state, `current_row`,
`current_column`, `current_value` (as the list of its characters) and
`escaped_quotes_encountered`; `acc` is the list of sink calls made so far
and the last argument is the input remaining from the current position.
`readChar` returning `eof` is the `[]` case; `peek` is the second list
element; `switchToNextLine`'s CRLF handling and the escaped-quote
double-consumption appear as two-character patterns. -/
def parseLoop (useEmpty : Bool) : MachineState → Nat → Nat → List Char → Bool →
    List Cell → List Char → ParseOutcome
  -- case MachineState::AtCellStart (lines 286-329)
  | .AtCellStart, row, column, cur, _esc, acc, [] =>
    -- eof: trailing newline at column 0 emits nothing, else trailing empty cell
    if column ≠ 0 then .ok (storeCell useEmpty acc row column cur .Empty) else .ok acc
  | .AtCellStart, row, column, _cur, _esc, acc, ' ' :: rest =>
    parseLoop useEmpty .InLeadingWhiteSpace row column [' '] false acc rest
  | .AtCellStart, row, column, _cur, _esc, acc, '\t' :: rest =>
    parseLoop useEmpty .InLeadingWhiteSpace row column ['\t'] false acc rest
  | .AtCellStart, row, column, _cur, _esc, acc, '\"' :: rest =>
    parseLoop useEmpty .InsideQuotedValue row column [] false acc rest
  | .AtCellStart, row, column, cur, _esc, acc, ',' :: rest =>
    parseLoop useEmpty .AtCellStart row (column + 1) [] false
      (storeCell useEmpty acc row column cur .Empty) rest
  | .AtCellStart, row, column, cur, _esc, acc, '\r' :: '\n' :: rest =>
    parseLoop useEmpty .AtCellStart (row + 1) 0 [] false
      (storeCell useEmpty acc row column cur .Empty) rest
  | .AtCellStart, row, column, cur, _esc, acc, '\r' :: rest =>
    parseLoop useEmpty .AtCellStart (row + 1) 0 [] false
      (storeCell useEmpty acc row column cur .Empty) rest
  | .AtCellStart, row, column, cur, _esc, acc, '\n' :: rest =>
    parseLoop useEmpty .AtCellStart (row + 1) 0 [] false
      (storeCell useEmpty acc row column cur .Empty) rest
  | .AtCellStart, row, column, _cur, _esc, acc, c :: rest =>
    parseLoop useEmpty .InsideUnquotedValue row column [c] false acc rest
  -- case MachineState::InLeadingWhiteSpace (lines 332-372)
  | .InLeadingWhiteSpace, row, column, cur, _esc, acc, [] =>
    .ok (storeCell useEmpty acc row column cur .StringWithoutEscapedQuotes)
  | .InLeadingWhiteSpace, row, column, cur, esc, acc, ' ' :: rest =>
    parseLoop useEmpty .InLeadingWhiteSpace row column (cur ++ [' ']) esc acc rest
  | .InLeadingWhiteSpace, row, column, cur, esc, acc, '\t' :: rest =>
    parseLoop useEmpty .InLeadingWhiteSpace row column (cur ++ ['\t']) esc acc rest
  | .InLeadingWhiteSpace, row, column, _cur, _esc, acc, '\"' :: rest =>
    parseLoop useEmpty .InsideQuotedValue row column [] false acc rest
  | .InLeadingWhiteSpace, row, column, cur, _esc, acc, ',' :: rest =>
    parseLoop useEmpty .AtCellStart row (column + 1) [] false
      (storeCell useEmpty acc row column cur .StringWithoutEscapedQuotes) rest
  | .InLeadingWhiteSpace, row, column, cur, _esc, acc, '\r' :: '\n' :: rest =>
    parseLoop useEmpty .AtCellStart (row + 1) 0 [] false
      (storeCell useEmpty acc row column cur .StringWithoutEscapedQuotes) rest
  | .InLeadingWhiteSpace, row, column, cur, _esc, acc, '\r' :: rest =>
    parseLoop useEmpty .AtCellStart (row + 1) 0 [] false
      (storeCell useEmpty acc row column cur .StringWithoutEscapedQuotes) rest
  | .InLeadingWhiteSpace, row, column, cur, _esc, acc, '\n' :: rest =>
    parseLoop useEmpty .AtCellStart (row + 1) 0 [] false
      (storeCell useEmpty acc row column cur .StringWithoutEscapedQuotes) rest
  | .InLeadingWhiteSpace, row, column, cur, esc, acc, c :: rest =>
    parseLoop useEmpty .InsideUnquotedValue row column (cur ++ [c]) esc acc rest
  -- case MachineState::InsideUnquotedValue (lines 375-417)
  | .InsideUnquotedValue, row, column, cur, esc, acc, [] =>
    .ok (storeCell useEmpty acc row column cur
      (if esc then .StringWithEscapedQuotes else .UnquotedData))
  | .InsideUnquotedValue, row, column, cur, _esc, acc, '\"' :: '\"' :: rest =>
    parseLoop useEmpty .InsideUnquotedValue row column (cur ++ ['\"', '\"']) true acc rest
  | .InsideUnquotedValue, row, column, _cur, _esc, acc, '\"' :: _rest =>
    .err ⟨row, column⟩ acc
  | .InsideUnquotedValue, row, column, cur, esc, acc, ',' :: rest =>
    parseLoop useEmpty .AtCellStart row (column + 1) [] false
      (storeCell useEmpty acc row column cur
        (if esc then .StringWithEscapedQuotes else .UnquotedData)) rest
  | .InsideUnquotedValue, row, column, cur, esc, acc, '\r' :: '\n' :: rest =>
    parseLoop useEmpty .AtCellStart (row + 1) 0 [] false
      (storeCell useEmpty acc row column cur
        (if esc then .StringWithEscapedQuotes else .UnquotedData)) rest
  | .InsideUnquotedValue, row, column, cur, esc, acc, '\r' :: rest =>
    parseLoop useEmpty .AtCellStart (row + 1) 0 [] false
      (storeCell useEmpty acc row column cur
        (if esc then .StringWithEscapedQuotes else .UnquotedData)) rest
  | .InsideUnquotedValue, row, column, cur, esc, acc, '\n' :: rest =>
    parseLoop useEmpty .AtCellStart (row + 1) 0 [] false
      (storeCell useEmpty acc row column cur
        (if esc then .StringWithEscapedQuotes else .UnquotedData)) rest
  | .InsideUnquotedValue, row, column, cur, esc, acc, c :: rest =>
    parseLoop useEmpty .InsideUnquotedValue row column (cur ++ [c]) esc acc rest
  -- case MachineState::InsideQuotedValue (lines 420-446)
  | .InsideQuotedValue, row, column, _cur, _esc, acc, [] =>
    .err ⟨row, column⟩ acc
  | .InsideQuotedValue, row, column, cur, _esc, acc, '\"' :: '\"' :: rest =>
    parseLoop useEmpty .InsideQuotedValue row column (cur ++ ['\"', '\"']) true acc rest
  | .InsideQuotedValue, row, column, cur, esc, acc, '\"' :: rest =>
    parseLoop useEmpty .AfterQuotedValue row column cur esc
      (storeCell useEmpty acc row column cur
        (if esc then .StringWithEscapedQuotes else .StringWithoutEscapedQuotes)) rest
  | .InsideQuotedValue, row, column, cur, esc, acc, c :: rest =>
    parseLoop useEmpty .InsideQuotedValue row column (cur ++ [c]) esc acc rest
  -- case MachineState::AfterQuotedValue (lines 449-475)
  | .AfterQuotedValue, _row, _column, _cur, _esc, acc, [] =>
    .ok acc
  | .AfterQuotedValue, row, column, cur, esc, acc, ' ' :: rest =>
    parseLoop useEmpty .AfterQuotedValue row column cur esc acc rest
  | .AfterQuotedValue, row, column, cur, esc, acc, '\t' :: rest =>
    parseLoop useEmpty .AfterQuotedValue row column cur esc acc rest
  | .AfterQuotedValue, row, column, _cur, _esc, acc, ',' :: rest =>
    parseLoop useEmpty .AtCellStart row (column + 1) [] false acc rest
  | .AfterQuotedValue, row, _column, _cur, _esc, acc, '\r' :: '\n' :: rest =>
    parseLoop useEmpty .AtCellStart (row + 1) 0 [] false acc rest
  | .AfterQuotedValue, row, _column, _cur, _esc, acc, '\r' :: rest =>
    parseLoop useEmpty .AtCellStart (row + 1) 0 [] false acc rest
  | .AfterQuotedValue, row, _column, _cur, _esc, acc, '\n' :: rest =>
    parseLoop useEmpty .AtCellStart (row + 1) 0 [] false acc rest
  | .AfterQuotedValue, row, column, _cur, _esc, acc, _c :: _rest =>
    .err ⟨row, column⟩ acc

/-- Embeds `Parser::parse` (csv_parser.h, lines 277-478): run the state
machine from a default-constructed `ParserState` over the whole input. -/
def parse (useEmpty : Bool) (data : List Char) : ParseOutcome :=
  parseLoop useEmpty .AtCellStart 0 0 [] false [] data

/-- Embeds `cleanString` (csv_util.h, lines 48-60): one left-to-right
pass; every character is copied, and when a copied character is a
double-quote immediately followed by another double-quote, the second one
is skipped. -/
def cleanString : List Char → List Char
  | [] => []
  | '\"' :: '\"' :: rest => '\"' :: cleanString rest
  | c :: rest => c :: cleanString rest

/-- Embeds `std::tolower` as used by `readNumber` (csv_util.h, line 76)
on ASCII input: map capital letters to lower case. -/
def toLowerChar (c : Char) : Char :=
  if 'A' ≤ c ∧ c ≤ 'Z' then Char.ofNat (c.toNat + 32) else c

/-- Embeds the preprocessing of `readNumber` (csv_util.h, lines 67-77):
trim the whitespace on the right (`find_last_not_of(" \t")`; when the
string is all spaces/tabs `npos` is returned and the size is left
unchanged), then convert to lowercase. -/
def readNumPrep (cell : List Char) : List Char :=
  let trimmed :=
    if cell.all (fun c => c = ' ' ∨ c = '\t') then cell
    else (cell.reverse.dropWhile (fun c => c = ' ' ∨ c = '\t')).reverse
  trimmed.map toLowerChar

/-- Whitespace skipped by `strtod`/`strtol` (`isspace` in the C locale):
space, tab, newline, vertical tab, form feed, carriage return. -/
def isStrtodSpace (c : Char) : Bool :=
  c = ' ' ∨ c = '\t' ∨ c = '\n' ∨ c = '\x0b' ∨ c = '\x0c' ∨ c = '\r'

/-- Hexadecimal digit of an already-lowercased string. -/
def isHexDigitChar (c : Char) : Bool :=
  c.isDigit ∨ ('a' ≤ c ∧ c ≤ 'f')

/-- Character allowed in the parenthesized sequence of `nan(...)`. -/
def isNanSeqChar (c : Char) : Bool :=
  c.isDigit ∨ ('a' ≤ c ∧ c ≤ 'z') ∨ c = '_'

/-- Numeric value of a string of decimal digits. -/
def decDigitsVal (l : List Char) : Nat :=
  l.foldl (fun acc c => acc * 10 + (c.toNat - '0'.toNat)) 0

/-- Numeric value of a string of (lowercased) hexadecimal digits. -/
def hexDigitsVal (l : List Char) : Nat :=
  l.foldl (fun acc c =>
    acc * 16 + (if c.isDigit then c.toNat - '0'.toNat else c.toNat - 'a'.toNat + 10)) 0

/-- The value produced by `std::stod`.  The finite case carries the exact
rational value of the accepted token; the C++ code rounds it to the
nearest `double` (and may raise `out_of_range` on overflow or underflow), which
this model does not reproduce — acceptance/rejection of tokens and the
exactly-representable example values are unaffected. -/
inductive FloatVal where
  | finite (q : ℚ)
  | inf (neg : Bool)
  | nan
deriving DecidableEq, Repr

/-- Apply the optional leading sign consumed by `strtod`. -/
def FloatVal.applySign (neg : Bool) : FloatVal → FloatVal
  | .finite q => .finite (if neg then -q else q)
  | .inf _ => .inf neg
  | .nan => .nan

/-- Optional sign: (negative?, characters consumed). -/
def scanSign : List Char → Bool × Nat
  | '+' :: _ => (false, 1)
  | '-' :: _ => (true, 1)
  | _ => (false, 0)

/-- The optional `(char-sequence)` suffix of `nan`: number of characters
consumed when a well-formed parenthesized sequence follows, else `none`. -/
def scanNanSeq : List Char → Option Nat
  | '(' :: t =>
    let seq := t.takeWhile isNanSeqChar
    match t.drop seq.length with
    | ')' :: _ => some (1 + seq.length + 1)
    | _ => none
  | _ => none

/-- Decimal exponent part `e[+-]digits` (input lowercased): the exponent
value and the characters consumed, or `none` when no well-formed exponent
follows (in which case `strtod` backtracks to before the `e`). -/
def scanDecExponent : List Char → Option (ℤ × Nat)
  | 'e' :: t =>
    let (eneg, es) := scanSign t
    let ed := (t.drop es).takeWhile Char.isDigit
    if ed.length = 0 then none
    else some ((if eneg then -(decDigitsVal ed : ℤ) else (decDigitsVal ed : ℤ)), 1 + es + ed.length)
  | _ => none

/-- Binary exponent part `p[+-]digits` of a hexadecimal float. -/
def scanBinExponent : List Char → Option (ℤ × Nat)
  | 'p' :: t =>
    let (eneg, es) := scanSign t
    let ed := (t.drop es).takeWhile Char.isDigit
    if ed.length = 0 then none
    else some ((if eneg then -(decDigitsVal ed : ℤ) else (decDigitsVal ed : ℤ)), 1 + es + ed.length)
  | _ => none

/-- Significand made of an integer digit string, a fractional digit
string and a base: its exact rational value. -/
def significandVal (base : Nat) (ip fp : List Char) (digitsVal : List Char → Nat) : ℚ :=
  (digitsVal ip : ℚ) + (digitsVal fp : ℚ) / (base : ℚ) ^ fp.length

/-- The number body after sign: `inf`/`infinity`, `nan`/`nan(...)`,
hexadecimal float, or decimal float, following the C `strtod` subject
sequence (input is already lowercased).  Returns the value and the number
of characters consumed, or `none` when no conversion is possible. -/
def scanFloatBody (rest : List Char) : Option (FloatVal × Nat) :=
  match rest with
  | 'i' :: 'n' :: 'f' :: more =>
    match more with
    | 'i' :: 'n' :: 'i' :: 't' :: 'y' :: _ => some (.inf false, 8)
    | _ => some (.inf false, 3)
  | 'n' :: 'a' :: 'n' :: more =>
    match scanNanSeq more with
    | some k => some (.nan, 3 + k)
    | none => some (.nan, 3)
  | '0' :: 'x' :: more =>
    let hip := more.takeWhile isHexDigitChar
    let r1 := more.drop hip.length
    let (hfp, dotc) :=
      match r1 with
      | '.' :: t => (t.takeWhile isHexDigitChar, 1)
      | _ => ([], 0)
    if hip.length + hfp.length = 0 then
      -- no hexadecimal digits: the subject sequence is just the "0"
      some (.finite 0, 1)
    else
      let mlen := 2 + hip.length + dotc + hfp.length
      let m := significandVal 16 hip hfp hexDigitsVal
      match scanBinExponent (rest.drop mlen) with
      | some (e, elen) => some (.finite (m * (2 : ℚ) ^ e), mlen + elen)
      | none => some (.finite m, mlen)
  | _ =>
    let ip := rest.takeWhile Char.isDigit
    let r1 := rest.drop ip.length
    let (fp, dotc) :=
      match r1 with
      | '.' :: t => (t.takeWhile Char.isDigit, 1)
      | _ => ([], 0)
    if ip.length + fp.length = 0 then none
    else
      let mlen := ip.length + dotc + fp.length
      let m := significandVal 10 ip fp decDigitsVal
      match scanDecExponent (rest.drop mlen) with
      | some (e, elen) => some (.finite (m * (10 : ℚ) ^ e), mlen + elen)
      | none => some (.finite m, mlen)

/-- Embeds `std::stod(s, &num_processed)` (csv_util.h, line 92): skip
leading whitespace, optional sign, then the number body; result value and
`num_processed`; `none` models the `std::invalid_argument` throw. -/
def stodScan (s : List Char) : Option (FloatVal × Nat) :=
  let ws := (s.takeWhile isStrtodSpace).length
  let afterWs := s.drop ws
  let (neg, sc) := scanSign afterWs
  match scanFloatBody (afterWs.drop sc) with
  | some (v, n) => some (v.applySign neg, ws + sc + n)
  | none => none

/-- Embeds `std::stoi`/`std::stol`/`std::stoll` (csv_util.h, lines
96-101), i.e. `strtol` with base 10: skip leading whitespace, optional
sign, then at least one decimal digit; result value and `num_processed`;
`none` models `std::invalid_argument`.  The value is modeled in `ℤ`
without the width-dependent `out_of_range` check. -/
def stolScan (s : List Char) : Option (ℤ × Nat) :=
  let ws := (s.takeWhile isStrtodSpace).length
  let afterWs := s.drop ws
  let (neg, sc) := scanSign afterWs
  let ds := (afterWs.drop sc).takeWhile Char.isDigit
  if ds.length = 0 then none
  else some ((if neg then -(decDigitsVal ds : ℤ) else (decDigitsVal ds : ℤ)), ws + sc + ds.length)

/-- Embeds `readNumber<Number>` (csv_util.h, lines 64-119) for the
floating-point targets: right-trim plain whitespace, lowercase, run the
conversion, and accept only when `num_processed == s.size()`. -/
def readNumberF (cell : List Char) : Option FloatVal :=
  let s := readNumPrep cell
  match stodScan s with
  | some (v, n) => if n = s.length then some v else none
  | none => none

/-- Embeds `readNumber<Number>` (csv_util.h, lines 64-119) for the
integer targets (`int`, `long`, `long long`): right-trim plain
whitespace, lowercase, run the conversion, and accept only when
`num_processed == s.size()`.  The unsigned targets (`stoul`/`stoull`)
accept the same set of trimmed tokens, differing only in the value
wrap-around, which is not needed by any claim. -/
def readNumberI (cell : List Char) : Option ℤ :=
  let s := readNumPrep cell
  match stolScan s with
  | some (v, n) => if n = s.length then some v else none
  | none => none

/-- Stored data of `CellReference` (csv_cell.h, lines 122-139): the
variant over `Empty`, `double` and `String{view, has_escaped_quotes}`. -/
inductive CellRefValue where
  | empty
  | double (v : FloatVal)
  | str (view : List Char) (has_escaped_quotes : Bool)
deriving DecidableEq, Repr

/-- Embeds the `CellReference` constructor (csv_cell.h, lines 384-407). -/
def CellReference.make (cell : List Char) (hint : CellTypeHint) : CellRefValue :=
  match hint with
  | .Empty => .empty
  | .StringWithEscapedQuotes => .str cell true
  | .StringWithoutEscapedQuotes => .str cell false
  | .UnquotedData =>
    match readNumberF cell with
    | some v => .double v
    | none => .str cell false

/-- Embeds `CellReference::getType` (csv_cell.h, lines 411-423). -/
def CellRefValue.getType : CellRefValue → CellType
  | .empty => .Empty
  | .double _ => .Double
  | .str _ _ => .String

/-- Embeds `CellReference::getDouble` (csv_cell.h, lines 434-440). -/
def CellRefValue.getDouble : CellRefValue → Option FloatVal
  | .double v => some v
  | _ => none

/-- Stored data of `CellValue` (csv_cell.h, lines 171-182): the variant
over `Empty`, `double` and an owned `std::string`. -/
inductive CellValValue where
  | empty
  | double (v : FloatVal)
  | str (s : List Char)
deriving DecidableEq, Repr

/-- Embeds the `CellValue` constructor (csv_cell.h, lines 471-494). -/
def CellValue.make (cell : List Char) (hint : CellTypeHint) : CellValValue :=
  match hint with
  | .Empty => .empty
  | .StringWithEscapedQuotes => .str (cleanString cell)
  | .StringWithoutEscapedQuotes => .str cell
  | .UnquotedData =>
    match readNumberF cell with
    | some v => .double v
    | none => .str cell

/-- Embeds `CellValue::getType` (csv_cell.h, lines 498-510). -/
def CellValValue.getType : CellValValue → CellType
  | .empty => .Empty
  | .double _ => .Double
  | .str _ => .String

/-- Embeds `CellValue::getDouble` (csv_cell.h, lines 521-527). -/
def CellValValue.getDouble : CellValValue → Option FloatVal
  | .double v => some v
  | _ => none

/-- Embeds `CellStringBuffer<Size>::Buffer` (csv_cell.h, lines 69-73):
`content` holds the characters written into the fixed `std::array`
(conceptually padded with zero bytes up to `Size`). -/
structure Buffer where
  content : List Char
  size : Nat
  valid : Bool
deriving DecidableEq, Repr

/-- Embeds `CellStringBuffer<Size>::prepareBuffer` (csv_cell.h, lines
345-360): an invalid buffer when `Size < input.size()`; otherwise either
the unescaped or the verbatim copy of the input.  The member
`CellStringBuffer::cleanString` (lines 364-378) iterates while
`input_pos < min(Size, input.size())` and detects quote pairs against the
full input; since it is reached only under `Size ≥ input.size()` the
bound is `input.size()` and it computes exactly `cleanString input`,
writing `output_pos = (cleanString input).length` characters. -/
def prepareBuffer (Size : Nat) (input : List Char) (has_escaped_quotes : Bool) : Buffer :=
  if Size < input.length then ⟨[], 0, false⟩
  else if has_escaped_quotes then ⟨cleanString input, (cleanString input).length, true⟩
  else ⟨input, input.length, true⟩

/-- Embeds `CellStringBuffer::getStringView` (csv_cell.h, lines 315-322):
`none` models the `std::out_of_range` throw on an invalid buffer. -/
def Buffer.getStringView (b : Buffer) : Option (List Char) :=
  if b.valid = false then none else some b.content

/-- Embeds `CellStringReference::getCleanStringBuffer<BufferSize>`
(csv_cell.h, lines 586-590), with the stored `value_` and
`has_escaped_quotes_` made explicit arguments. -/
def getCleanStringBuffer (BufferSize : Nat) (value : List Char)
    (has_escaped_quotes : Bool) : Buffer :=
  prepareBuffer BufferSize value has_escaped_quotes

/-- Embeds `CellStringReference::getRequiredBufferSize` (csv_cell.h,
lines 594-597): the size of the stored view. -/
def getRequiredBufferSize (value : List Char) : Nat :=
  value.length

/-- Embeds `enum class MatrixOrder` (csv_matrix.h, lines 17-20). -/
inductive MatrixOrder where
  | RowMajor
  | ColumnMajor
deriving DecidableEq, Repr

/-- Embeds the data of `MatrixInformation` (csv_matrix.h, lines 25-107):
row count, column count and element order, all defaulted like the C++
members. -/
structure MatrixInformation where
  rows : Nat := 0
  columns : Nat := 0
  order : MatrixOrder := .RowMajor
deriving DecidableEq, Repr

/-- Embeds the static `MatrixInformation::matrixIndex` (csv_matrix.h,
lines 35-43). -/
def matrixIndex (row column rows columns : Nat) (order : MatrixOrder) : Nat :=
  if order = .RowMajor then row * columns + column else column * rows + row

/-- The `(cell_data, hint)` pair handed to `BehaviorPolicy::create` for
one cell.  The assembly folds store this pair unchanged: the creation
policy is an injected function applied pointwise, so it is irrelevant to
the assembly semantics under verification. -/
abbrev Payload := List Char × CellTypeHint

/-- Embeds `std::vector::resize(n)` on a vector of default-constructible
elements: truncate to `n` or pad with default-initialized (`dflt`)
entries up to `n`. -/
def resizeDef (dflt : α) (l : List α) (n : Nat) : List α :=
  l.take n ++ List.replicate (n - l.length) dflt

/-- Embeds one invocation of the sink lambda of `Parser::parseTo2DVector`
(csv_parser.h, lines 488-498): grow the outer (per-column) vector to
`column + 1`, grow the inner column to `row + 1`, then assign the created
cell at `[column][row]`. -/
def v2dStep (m : List (List (Option Payload))) (cell : Cell) : List (List (Option Payload)) :=
  let m := if m.length < cell.column + 1 then resizeDef [] m (cell.column + 1) else m
  let inner := m.getD cell.column []
  let inner := if inner.length < cell.row + 1 then resizeDef none inner (cell.row + 1) else inner
  m.set cell.column (inner.set cell.row (some (cell.text, cell.hint)))

/-- Embeds `Parser::parseTo2DVector` (csv_parser.h, lines 484-501): the
sink fills a function-local `parsed_values`, which replaces the caller's
container (`std::swap`) only after `parse` returns; when `parse` throws,
the exception propagates and the caller's container `old` is untouched. -/
def parseTo2DVectorRun (useEmpty : Bool) (data : List Char)
    (old : List (List (Option Payload))) :
    Option ParseErr × List (List (Option Payload)) :=
  match parse useEmpty data with
  | .err e _ => (some e, old)
  | .ok cells => (none, cells.foldl v2dStep [])

/-- State of the sink lambda of `Parser::parseToVectorRowMajor`
(csv_parser.h, lines 536-578): the local flat vector, the
`unknown_columns` flag, the `read_columns` counter, the column count
stored in `info` so far, and an out-of-bounds marker (see `rmStep`). -/
structure RMState where
  values : List (Option Payload)
  unknown_columns : Bool
  read_columns : Nat
  info_columns : Nat
  oob : Bool
deriving DecidableEq, Repr

/-- Embeds one invocation of the sink lambda of
`Parser::parseToVectorRowMajor` (csv_parser.h, lines 555-577).  While
`unknown_columns` holds, a row-0 cell updates `read_columns` and resizes
the vector, and the first row-1 cell commits the inferred column count;
then the vector is grown to `(row + 1) * columns` when too small, and the
created cell is assigned at `info.matrixIndex(row, column)` =
`row * columns + column` (row-major, with `columns = 0` while the count
is still unknown).  The C++ assignment uses unchecked
`std::vector::operator[]`; an out-of-range index is undefined behavior,
modeled here by setting `oob` and dropping the write.  The `rows_hint`
parameter only pre-reserves capacity and has no observable effect. -/
def rmStep (st : RMState) (cell : Cell) : RMState :=
  let st :=
    if st.unknown_columns then
      if cell.row = 0 then
        { st with read_columns := cell.column + 1,
                  values := resizeDef none st.values (cell.column + 1) }
      else if cell.row = 1 then
        { st with unknown_columns := false, info_columns := st.read_columns }
      else st
    else st
  let st :=
    if st.unknown_columns = false ∧ st.values.length < (cell.row + 1) * st.info_columns then
      { st with values := resizeDef none st.values ((cell.row + 1) * st.info_columns) }
    else st
  let idx := cell.row * st.info_columns + cell.column
  if idx < st.values.length then
    { st with values := st.values.set idx (some (cell.text, cell.hint)) }
  else
    { st with oob := true }

/-- Result of a flat-matrix parse call: the thrown error if any, the
caller's container after the call, the returned `MatrixInformation`
(meaningless when an error was thrown, since the exception propagates
before the function returns), and the out-of-bounds marker. -/
structure FlatResult where
  error : Option ParseErr
  values : List (Option Payload)
  info : MatrixInformation
  oob : Bool
deriving DecidableEq, Repr

/-- Embeds `Parser::parseToVectorRowMajor` (csv_parser.h, lines 536-590):
run the sink fold over the emitted cells, swap the local vector into the
caller's container on success, and derive the final `MatrixInformation`
(an all-default one with row-major order when the result is empty, else
`rows = size / columns` guarded by `columns == 0`).  On a parse error the
caller's container `old` is untouched. -/
def parseToVectorRowMajorRun (useEmpty : Bool) (data : List Char)
    (old : List (Option Payload)) (columns : Option Nat) : FlatResult :=
  match parse useEmpty data with
  | .err e _ => { error := some e, values := old, info := {}, oob := false }
  | .ok cells =>
    let st := cells.foldl rmStep
      { values := [], unknown_columns := columns.isNone, read_columns := 0,
        info_columns := columns.getD 0, oob := false }
    if st.values = [] then
      { error := none, values := st.values, info := { order := .RowMajor }, oob := st.oob }
    else
      { error := none, values := st.values,
        info := { rows := if st.info_columns = 0 then 0 else st.values.length / st.info_columns,
                  columns := st.info_columns, order := .RowMajor },
        oob := st.oob }

/-- Embeds one invocation of the sink lambda of
`Parser::parseToVectorColumnMajor` (csv_parser.h, lines 609-616): grow
the vector to `(column + 1) * rows` when too small, then assign at
`info.matrixIndex(row, column)` = `column * rows + row` (column-major
with the caller-supplied row count).  As in `rmStep`, an out-of-range
unchecked write is undefined behavior, modeled by the `oob` marker of the
state pair. -/
def cmStep (rows : Nat) (st : List (Option Payload) × Bool) (cell : Cell) :
    List (Option Payload) × Bool :=
  let values := if st.1.length < (cell.column + 1) * rows then
      resizeDef none st.1 ((cell.column + 1) * rows)
    else st.1
  let idx := cell.column * rows + cell.row
  if idx < values.length then (values.set idx (some (cell.text, cell.hint)), st.2)
  else (values, true)

/-- Embeds `Parser::parseToVectorColumnMajor` (csv_parser.h, lines
596-629): requires the row count; on success the local vector replaces
the caller's container and the returned information carries the supplied
row count and `columns = size / rows` (guarded by `rows == 0`; an empty
result yields the all-default information with column-major order).  The
`columns_hint` parameter only pre-reserves capacity and has no observable
effect.  On a parse error the caller's container `old` is untouched. -/
def parseToVectorColumnMajorRun (useEmpty : Bool) (data : List Char)
    (old : List (Option Payload)) (rows : Nat) : FlatResult :=
  match parse useEmpty data with
  | .err e _ => { error := some e, values := old, info := {}, oob := false }
  | .ok cells =>
    let st := cells.foldl (cmStep rows) ([], false)
    if st.1 = [] then
      { error := none, values := st.1, info := { order := .ColumnMajor }, oob := st.2 }
    else
      { error := none, values := st.1,
        info := { rows := rows, columns := if rows = 0 then 0 else st.1.length / rows,
                  order := .ColumnMajor },
        oob := st.2 }

/-- The four malformed-input shapes of the specification's error
taxonomy (spec.md §7).  A double-quote at the start of a cell always
opens a quoted value, so the specification's shape (2) — "a quote
immediately starting an unquoted token" such as `""x` — reads as an
empty quoted value followed by a stray character and surfaces through
the same after-quoted-value rule as shape (4); both are classified
`JunkAfterQuotedValue` here. -/
inductive ErrorShape where
  | StrayQuoteInUnquotedToken
  | UnterminatedQuotedValue
  | JunkAfterQuotedValue
deriving DecidableEq, Repr

/-- A structural failure found by the specification-level scan: the
shape and the 0-based row/column of the cell under construction. -/
structure SpecFail where
  shape : ErrorShape
  row : Nat
  column : Nat
deriving DecidableEq, Repr

/-- Specification-level scan of the input, written from the transition
rules of spec.md §4.3 and the error taxonomy of §7, to be compared with
the implementation machine `parseLoop`: it tracks only the machine state
and the 0-based position of the cell under construction, and reports the
first structural error (with its shape) or `none` for well-formed input.
Cell contents, hints and emissions are deliberately not tracked. -/
def specScan : MachineState → Nat → Nat → List Char → Option SpecFail
  -- at cell start: whitespace, quote, delimiter, line break, eof, or token start
  | .AtCellStart, _, _, [] => none
  | .AtCellStart, r, c, ' ' :: rest => specScan .InLeadingWhiteSpace r c rest
  | .AtCellStart, r, c, '\t' :: rest => specScan .InLeadingWhiteSpace r c rest
  | .AtCellStart, r, c, '\"' :: rest => specScan .InsideQuotedValue r c rest
  | .AtCellStart, r, c, ',' :: rest => specScan .AtCellStart r (c + 1) rest
  | .AtCellStart, r, _, '\r' :: '\n' :: rest => specScan .AtCellStart (r + 1) 0 rest
  | .AtCellStart, r, _, '\r' :: rest => specScan .AtCellStart (r + 1) 0 rest
  | .AtCellStart, r, _, '\n' :: rest => specScan .AtCellStart (r + 1) 0 rest
  | .AtCellStart, r, c, _ :: rest => specScan .InsideUnquotedValue r c rest
  -- in leading whitespace
  | .InLeadingWhiteSpace, _, _, [] => none
  | .InLeadingWhiteSpace, r, c, ' ' :: rest => specScan .InLeadingWhiteSpace r c rest
  | .InLeadingWhiteSpace, r, c, '\t' :: rest => specScan .InLeadingWhiteSpace r c rest
  | .InLeadingWhiteSpace, r, c, '\"' :: rest => specScan .InsideQuotedValue r c rest
  | .InLeadingWhiteSpace, r, c, ',' :: rest => specScan .AtCellStart r (c + 1) rest
  | .InLeadingWhiteSpace, r, _, '\r' :: '\n' :: rest => specScan .AtCellStart (r + 1) 0 rest
  | .InLeadingWhiteSpace, r, _, '\r' :: rest => specScan .AtCellStart (r + 1) 0 rest
  | .InLeadingWhiteSpace, r, _, '\n' :: rest => specScan .AtCellStart (r + 1) 0 rest
  | .InLeadingWhiteSpace, r, c, _ :: rest => specScan .InsideUnquotedValue r c rest
  -- inside an unquoted value: a lone quote is shape (1)
  | .InsideUnquotedValue, _, _, [] => none
  | .InsideUnquotedValue, r, c, '\"' :: '\"' :: rest => specScan .InsideUnquotedValue r c rest
  | .InsideUnquotedValue, r, c, '\"' :: _ => some ⟨.StrayQuoteInUnquotedToken, r, c⟩
  | .InsideUnquotedValue, r, c, ',' :: rest => specScan .AtCellStart r (c + 1) rest
  | .InsideUnquotedValue, r, _, '\r' :: '\n' :: rest => specScan .AtCellStart (r + 1) 0 rest
  | .InsideUnquotedValue, r, _, '\r' :: rest => specScan .AtCellStart (r + 1) 0 rest
  | .InsideUnquotedValue, r, _, '\n' :: rest => specScan .AtCellStart (r + 1) 0 rest
  | .InsideUnquotedValue, r, c, _ :: rest => specScan .InsideUnquotedValue r c rest
  -- inside a quoted value: end of input is shape (3)
  | .InsideQuotedValue, r, c, [] => some ⟨.UnterminatedQuotedValue, r, c⟩
  | .InsideQuotedValue, r, c, '\"' :: '\"' :: rest => specScan .InsideQuotedValue r c rest
  | .InsideQuotedValue, r, c, '\"' :: rest => specScan .AfterQuotedValue r c rest
  | .InsideQuotedValue, r, c, _ :: rest => specScan .InsideQuotedValue r c rest
  -- after a quoted value: any other character is shape (2)/(4)
  | .AfterQuotedValue, _, _, [] => none
  | .AfterQuotedValue, r, c, ' ' :: rest => specScan .AfterQuotedValue r c rest
  | .AfterQuotedValue, r, c, '\t' :: rest => specScan .AfterQuotedValue r c rest
  | .AfterQuotedValue, r, c, ',' :: rest => specScan .AtCellStart r (c + 1) rest
  | .AfterQuotedValue, r, _, '\r' :: '\n' :: rest => specScan .AtCellStart (r + 1) 0 rest
  | .AfterQuotedValue, r, _, '\r' :: rest => specScan .AtCellStart (r + 1) 0 rest
  | .AfterQuotedValue, r, _, '\n' :: rest => specScan .AtCellStart (r + 1) 0 rest
  | .AfterQuotedValue, r, c, _ :: _ => some ⟨.JunkAfterQuotedValue, r, c⟩

/-- The position of an emitted cell. -/
def Cell.pos (cell : Cell) : Nat × Nat := (cell.row, cell.column)

/-- An emitted cell without its type hint: position and token text. -/
def Cell.strip (cell : Cell) : Nat × Nat × List Char := (cell.row, cell.column, cell.text)

/-- Projection of the state machine that records, for each sink call of
`parseLoop`, the `(row, column, token_text)` triple and nothing else: no
hints, no `escaped_quotes_encountered`, no policy toggle, and an error
simply stops the emission.  Used to factor the proofs of the emission
ordering and of the hint-independence of the token stream. -/
def tokScan : MachineState → Nat → Nat → List Char → List Char → List (Nat × Nat × List Char)
  | .AtCellStart, row, column, cur, [] =>
    if column ≠ 0 then [(row, column, cur)] else []
  | .AtCellStart, row, column, _cur, ' ' :: rest =>
    tokScan .InLeadingWhiteSpace row column [' '] rest
  | .AtCellStart, row, column, _cur, '\t' :: rest =>
    tokScan .InLeadingWhiteSpace row column ['\t'] rest
  | .AtCellStart, row, column, _cur, '\"' :: rest =>
    tokScan .InsideQuotedValue row column [] rest
  | .AtCellStart, row, column, cur, ',' :: rest =>
    (row, column, cur) :: tokScan .AtCellStart row (column + 1) [] rest
  | .AtCellStart, row, column, cur, '\r' :: '\n' :: rest =>
    (row, column, cur) :: tokScan .AtCellStart (row + 1) 0 [] rest
  | .AtCellStart, row, column, cur, '\r' :: rest =>
    (row, column, cur) :: tokScan .AtCellStart (row + 1) 0 [] rest
  | .AtCellStart, row, column, cur, '\n' :: rest =>
    (row, column, cur) :: tokScan .AtCellStart (row + 1) 0 [] rest
  | .AtCellStart, row, column, _cur, c :: rest =>
    tokScan .InsideUnquotedValue row column [c] rest
  | .InLeadingWhiteSpace, row, column, cur, [] =>
    [(row, column, cur)]
  | .InLeadingWhiteSpace, row, column, cur, ' ' :: rest =>
    tokScan .InLeadingWhiteSpace row column (cur ++ [' ']) rest
  | .InLeadingWhiteSpace, row, column, cur, '\t' :: rest =>
    tokScan .InLeadingWhiteSpace row column (cur ++ ['\t']) rest
  | .InLeadingWhiteSpace, row, column, _cur, '\"' :: rest =>
    tokScan .InsideQuotedValue row column [] rest
  | .InLeadingWhiteSpace, row, column, cur, ',' :: rest =>
    (row, column, cur) :: tokScan .AtCellStart row (column + 1) [] rest
  | .InLeadingWhiteSpace, row, column, cur, '\r' :: '\n' :: rest =>
    (row, column, cur) :: tokScan .AtCellStart (row + 1) 0 [] rest
  | .InLeadingWhiteSpace, row, column, cur, '\r' :: rest =>
    (row, column, cur) :: tokScan .AtCellStart (row + 1) 0 [] rest
  | .InLeadingWhiteSpace, row, column, cur, '\n' :: rest =>
    (row, column, cur) :: tokScan .AtCellStart (row + 1) 0 [] rest
  | .InLeadingWhiteSpace, row, column, cur, c :: rest =>
    tokScan .InsideUnquotedValue row column (cur ++ [c]) rest
  | .InsideUnquotedValue, row, column, cur, [] =>
    [(row, column, cur)]
  | .InsideUnquotedValue, row, column, cur, '\"' :: '\"' :: rest =>
    tokScan .InsideUnquotedValue row column (cur ++ ['\"', '\"']) rest
  | .InsideUnquotedValue, _row, _column, _cur, '\"' :: _rest => []
  | .InsideUnquotedValue, row, column, cur, ',' :: rest =>
    (row, column, cur) :: tokScan .AtCellStart row (column + 1) [] rest
  | .InsideUnquotedValue, row, column, cur, '\r' :: '\n' :: rest =>
    (row, column, cur) :: tokScan .AtCellStart (row + 1) 0 [] rest
  | .InsideUnquotedValue, row, column, cur, '\r' :: rest =>
    (row, column, cur) :: tokScan .AtCellStart (row + 1) 0 [] rest
  | .InsideUnquotedValue, row, column, cur, '\n' :: rest =>
    (row, column, cur) :: tokScan .AtCellStart (row + 1) 0 [] rest
  | .InsideUnquotedValue, row, column, cur, c :: rest =>
    tokScan .InsideUnquotedValue row column (cur ++ [c]) rest
  | .InsideQuotedValue, _row, _column, _cur, [] => []
  | .InsideQuotedValue, row, column, cur, '\"' :: '\"' :: rest =>
    tokScan .InsideQuotedValue row column (cur ++ ['\"', '\"']) rest
  | .InsideQuotedValue, row, column, cur, '\"' :: rest =>
    (row, column, cur) :: tokScan .AfterQuotedValue row column cur rest
  | .InsideQuotedValue, row, column, cur, c :: rest =>
    tokScan .InsideQuotedValue row column (cur ++ [c]) rest
  | .AfterQuotedValue, _row, _column, _cur, [] => []
  | .AfterQuotedValue, row, column, cur, ' ' :: rest =>
    tokScan .AfterQuotedValue row column cur rest
  | .AfterQuotedValue, row, column, cur, '\t' :: rest =>
    tokScan .AfterQuotedValue row column cur rest
  | .AfterQuotedValue, row, column, _cur, ',' :: rest =>
    tokScan .AtCellStart row (column + 1) [] rest
  | .AfterQuotedValue, row, _column, _cur, '\r' :: '\n' :: rest =>
    tokScan .AtCellStart (row + 1) 0 [] rest
  | .AfterQuotedValue, row, _column, _cur, '\r' :: rest =>
    tokScan .AtCellStart (row + 1) 0 [] rest
  | .AfterQuotedValue, row, _column, _cur, '\n' :: rest =>
    tokScan .AtCellStart (row + 1) 0 [] rest
  | .AfterQuotedValue, _row, _column, _cur, _c :: _rest => []

/-- Strict lexicographic order on `(row, column)` positions. -/
def lexLt (p q : Nat × Nat) : Prop :=
  p.1 < q.1 ∨ (p.1 = q.1 ∧ p.2 < q.2)

/-- Reflexive lexicographic order on `(row, column)` positions. -/
def lexLe (p q : Nat × Nat) : Prop :=
  p.1 < q.1 ∨ (p.1 = q.1 ∧ p.2 ≤ q.2)

/-- The possible position sequences of cells emitted from position
`(r, c)` on: the next emission is at `(r, c)` itself, and after an
emission at `(r, c)` the machine continues either at `(r, c + 1)` (next
column) or at `(r + 1, 0)` (next line). -/
inductive ChainFrom : Nat → Nat → List (Nat × Nat) → Prop
  | nil (r c : Nat) : ChainFrom r c []
  | consCol {r c : Nat} {rest : List (Nat × Nat)} :
      ChainFrom r (c + 1) rest → ChainFrom r c ((r, c) :: rest)
  | consRow {r c : Nat} {rest : List (Nat × Nat)} :
      ChainFrom (r + 1) 0 rest → ChainFrom r c ((r, c) :: rest)

/-- Emission-ordering invariant per machine state: in `AfterQuotedValue`
the cell at the current position has already been emitted, so the
remaining emissions form a chain from one of its successor positions; in
every other state they form a chain from the current position itself. -/
def chainPred : MachineState → Nat → Nat → List (Nat × Nat) → Prop
  | .AfterQuotedValue, r, c, l => ChainFrom r (c + 1) l ∨ ChainFrom (r + 1) 0 l
  | _, r, c, l => ChainFrom r c l

/-- The position of a stripped token. -/
def tokPos (t : Nat × Nat × List Char) : Nat × Nat := (t.1, t.2.1)

/-- Number of data rows in an emitted cell list: the maximum `row + 1`. -/
def numRows (cells : List Cell) : Nat :=
  cells.foldr (fun cell m => max (cell.row + 1) m) 0

/-- Number of data columns in an emitted cell list: the maximum
`column + 1`. -/
def numCols (cells : List Cell) : Nat :=
  cells.foldr (fun cell m => max (cell.column + 1) m) 0

/-- The flat size the column-major sink has to grow to: the maximum
`(column + 1) * rows` over the cells. -/
def cmNeeded (rows : Nat) (cells : List Cell) : Nat :=
  cells.foldr (fun cell m => max ((cell.column + 1) * rows) m) 0

/-- The column-major flat index of a cell (`matrixIndex`, column-major). -/
def cmIdx (rows : Nat) (cell : Cell) : Nat :=
  cell.column * rows + cell.row

/-- The flat size the row-major sink has to grow to once the column
count `k` is fixed: the maximum `(row + 1) * k` over the cells. -/
def rmNeeded (k : Nat) (cells : List Cell) : Nat :=
  cells.foldr (fun cell m => max ((cell.row + 1) * k) m) 0

/-- The row-major flat index of a cell under column count `k`
(`matrixIndex`, row-major). -/
def rmIdx (k : Nat) (cell : Cell) : Nat :=
  cell.row * k + cell.column

/-- The number of cells emitted for row 0 — the width the row-major
assembler infers when the column count is omitted. -/
def row0Width (cells : List Cell) : Nat :=
  (cells.filter fun cell => cell.row == 0).length

example : parse true ",".toList =
    .ok [⟨0, 0, [], .Empty⟩, ⟨0, 1, [], .Empty⟩] := by decide

example : parse true "ab,cd,ef\n5,6,\"7".toList =
    .err ⟨1, 2⟩ [⟨0, 0, "ab".toList, .UnquotedData⟩, ⟨0, 1, "cd".toList, .UnquotedData⟩,
      ⟨0, 2, "ef".toList, .UnquotedData⟩, ⟨1, 0, "5".toList, .UnquotedData⟩,
      ⟨1, 1, "6".toList, .UnquotedData⟩] := by decide

example : parse true "\"abc".toList = .err ⟨0, 0⟩ [] := by decide

example : readNumberF "5".toList = some (.finite 5) := by
  simp [readNumberF, readNumPrep, toLowerChar, stodScan, isStrtodSpace, scanSign,
    scanFloatBody, scanDecExponent, scanNanSeq, significandVal, decDigitsVal,
    FloatVal.applySign]
example : readNumberF " 5 ".toList = some (.finite 5) := by
  simp [readNumberF, readNumPrep, toLowerChar, stodScan, isStrtodSpace, scanSign,
    scanFloatBody, scanDecExponent, scanNanSeq, significandVal, decDigitsVal,
    FloatVal.applySign]
example : readNumberF "5a".toList = none := by decide
example : readNumberF "5 a".toList = none := by decide
example : readNumberF "inf".toList = some (.inf false) := by decide
example : readNumberF "-INF".toList = some (.inf true) := by decide
example : readNumberF "nan".toList = some .nan := by decide
example : readNumberF "3.2e1".toList = some (.finite 32) := by
  simp [readNumberF, readNumPrep, toLowerChar, stodScan, isStrtodSpace, scanSign,
    scanFloatBody, scanDecExponent, scanNanSeq, significandVal, decDigitsVal,
    FloatVal.applySign]
  norm_num
example : readNumberF "-12".toList = some (.finite (-12)) := by
  simp [readNumberF, readNumPrep, toLowerChar, stodScan, isStrtodSpace, scanSign,
    scanFloatBody, scanDecExponent, scanNanSeq, significandVal, decDigitsVal,
    FloatVal.applySign]
example : readNumberF "21.".toList = some (.finite 21) := by
  simp [readNumberF, readNumPrep, toLowerChar, stodScan, isStrtodSpace, scanSign,
    scanFloatBody, scanDecExponent, scanNanSeq, significandVal, decDigitsVal,
    FloatVal.applySign]
example : readNumberF "".toList = none := by decide
example : readNumberF " ".toList = none := by decide
example : readNumberI "5e+6".toList = none := by decide
example : readNumberI "inf".toList = none := by decide
example : readNumberI "nan".toList = none := by decide
example : readNumberI "5a".toList = none := by decide
example : readNumberI " -42 ".toList = some (-42) := by decide
example : cleanString "\"\"\"\"".toList = "\"\"".toList := by decide
example : cleanString (cleanString "\"\"\"\"".toList) = "\"".toList := by decide

set_option maxHeartbeats 1000000 in
/-- The implementation machine and the specification-level scan agree on
failure: `parseLoop` throws exactly when `specScan` reports a structural
error, and the thrown `ParseError` carries the row/column of the cell
under construction reported by the scan. -/
theorem parseLoop_error_eq_specScan (u : Bool) (ms : MachineState) (r c : Nat)
    (cur : List Char) (esc : Bool) (acc : List Cell) (input : List Char) :
    (parseLoop u ms r c cur esc acc input).error =
      (specScan ms r c input).map (fun f => ParseErr.mk f.row f.column) := by
  induction ms, r, c, cur, esc, acc, input using parseLoop.induct u <;>
    simp only [parseLoop, specScan, ParseOutcome.error, Option.map_none,
      Option.map_some] <;>
    first
      | assumption
      | rfl
      | (rename_i h; rw [if_pos h]; try rfl)
      | (rename_i h; rw [if_neg h]; try rfl)

set_option maxHeartbeats 1000000 in
/-- The cells handed to the sink by `parseLoop`, stripped of their type
hints, are the accumulator followed by the tokens of `tokScan`: the
emitted positions and texts depend neither on the policy toggle nor on
the escaped-quotes flag. -/
theorem parseLoop_cells_strip (u : Bool) (ms : MachineState) (r c : Nat)
    (cur : List Char) (esc : Bool) (acc : List Cell) (input : List Char) :
    (parseLoop u ms r c cur esc acc input).cells.map Cell.strip =
      acc.map Cell.strip ++ tokScan ms r c cur input := by
  induction ms, r, c, cur, esc, acc, input using parseLoop.induct u <;>
    simp only [parseLoop, tokScan] <;>
    simp_all [ParseOutcome.cells, storeCell, Cell.strip]

set_option maxHeartbeats 1000000 in
/-- The emission positions of `tokScan` form a chain: each state's
remaining emissions follow `chainPred`. -/
theorem tokScan_chain (ms : MachineState) (r c : Nat) (cur input : List Char) :
    chainPred ms r c ((tokScan ms r c cur input).map tokPos) := by
  induction ms, r, c, cur, input using tokScan.induct <;>
    simp only [tokScan, chainPred, List.map_cons, List.map_nil, tokPos] at * <;>
    first
      | exact ChainFrom.nil _ _
      | exact ChainFrom.consCol (ChainFrom.nil _ _)
      | exact Or.inl (ChainFrom.nil _ _)
      | assumption
      | (rename_i ih; exact ChainFrom.consCol ih)
      | (rename_i ih; exact ChainFrom.consRow ih)
      | (rename_i ih; exact Or.inl ih)
      | (rename_i ih; exact Or.inr ih)
      | (rename_i ih;
         rcases ih with h | h <;>
           first
             | exact ChainFrom.consCol h
             | exact ChainFrom.consRow h)
      | (split <;>
           first
             | exact ChainFrom.consCol (ChainFrom.nil _ _)
             | exact ChainFrom.nil _ _)

/-- The first element of a chain from `(r, c)` is `(r, c)` itself. -/
theorem chainFrom_head {r c : Nat} {p : Nat × Nat} {l : List (Nat × Nat)}
    (h : ChainFrom r c (p :: l)) : p = (r, c) := by
  cases h <;> rfl

/-- Every element of a chain from `(r, c)` is lexicographically at or
after `(r, c)`. -/
theorem chainFrom_mem {r c : Nat} {l : List (Nat × Nat)} (h : ChainFrom r c l) :
    ∀ p ∈ l, lexLe (r, c) p := by
  induction h with
  | nil => simp
  | consCol _ ih =>
    intro p hp
    rcases List.mem_cons.mp hp with rfl | hp
    · simp [lexLe]
    · have := ih p hp
      simp only [lexLe] at *
      omega
  | consRow _ ih =>
    intro p hp
    rcases List.mem_cons.mp hp with rfl | hp
    · simp [lexLe]
    · have := ih p hp
      simp only [lexLe] at *
      omega

/-- A chain is strictly increasing in the lexicographic position order. -/
theorem chainFrom_pairwise {r c : Nat} {l : List (Nat × Nat)} (h : ChainFrom r c l) :
    l.Pairwise lexLt := by
  induction h with
  | nil => exact List.Pairwise.nil
  | consCol h ih =>
    refine List.Pairwise.cons (fun p hp => ?_) ih
    have := chainFrom_mem h p hp
    simp only [lexLe, lexLt] at *
    omega
  | consRow h ih =>
    refine List.Pairwise.cons (fun p hp => ?_) ih
    have := chainFrom_mem h p hp
    simp only [lexLe, lexLt] at *
    omega

/-- Consecutive elements of a chain are either in the same row with the
column incremented by exactly one, or at column 0 of the next row. -/
theorem chainFrom_adjacent {r c : Nat} {l : List (Nat × Nat)} (h : ChainFrom r c l) :
    ∀ i p q, l[i]? = some p → l[i + 1]? = some q →
      q = (p.1, p.2 + 1) ∨ q = (p.1 + 1, 0) := by
  induction h with
  | nil => intro i p q hp _; simp at hp
  | @consCol r c rest h ih =>
    intro i p q hp hq
    match i with
    | 0 =>
      simp only [List.getElem?_cons_zero, Option.some.injEq] at hp
      simp only [List.getElem?_cons_succ] at hq
      subst hp
      match rest, hq with
      | p' :: rest', hq =>
        simp only [List.getElem?_cons_zero, Option.some.injEq] at hq
        subst hq
        exact Or.inl (by rw [chainFrom_head h])
    | i + 1 =>
      simp only [List.getElem?_cons_succ] at hp hq
      exact ih i p q hp hq
  | @consRow r c rest h ih =>
    intro i p q hp hq
    match i with
    | 0 =>
      simp only [List.getElem?_cons_zero, Option.some.injEq] at hp
      simp only [List.getElem?_cons_succ] at hq
      subst hp
      match rest, hq with
      | p' :: rest', hq =>
        simp only [List.getElem?_cons_zero, Option.some.injEq] at hq
        subst hq
        exact Or.inr (by rw [chainFrom_head h])
    | i + 1 =>
      simp only [List.getElem?_cons_succ] at hp hq
      exact ih i p q hp hq

/-- A chain from `(r, c)` splits into its row-`r` prefix — positions
`(r, c), (r, c+1), …` — and a remainder that is either empty or a chain
from `(r + 1, 0)` all of whose elements lie in rows after `r`. -/
theorem chainFrom_split_row {r c : Nat} {l : List (Nat × Nat)} (h : ChainFrom r c l) :
    ∃ b rest, l = b ++ rest ∧
      (∀ i (hi : i < b.length), b.get ⟨i, hi⟩ = (r, c + i)) ∧
      (rest = [] ∨ ChainFrom (r + 1) 0 rest) ∧
      (∀ p ∈ rest, r + 1 ≤ p.1) := by
  induction h with
  | nil => exact ⟨[], [], by simp⟩
  | @consCol r c rest h ih =>
    obtain ⟨b, rest', rfl, hb, hrest, hrow⟩ := ih
    refine ⟨(r, c) :: b, rest', by simp, ?_, hrest, hrow⟩
    intro i hi
    match i with
    | 0 => simp
    | i + 1 =>
      simp only [List.length_cons, Nat.add_lt_add_iff_right] at hi
      have := hb i hi
      simp only [List.get_cons_succ]
      rw [this]
      simp [Nat.add_assoc, Nat.add_comm 1 i]
  | @consRow r c rest h _ih =>
    refine ⟨[(r, c)], rest, by simp, ?_, Or.inr h, ?_⟩
    · intro i hi
      match i with
      | 0 => simp
    · intro p hp
      have := chainFrom_mem h p hp
      simp only [lexLe] at this
      omega

/-- Glue: a successful `parse` yields cells whose positions form a chain
from `(0, 0)`. -/
theorem parse_ok_chain {useEmpty : Bool} {data : List Char} {cells : List Cell}
    (h : parse useEmpty data = .ok cells) :
    ChainFrom 0 0 (cells.map fun cell => (cell.row, cell.column)) := by
  have hcells : (parse useEmpty data).cells = cells := by rw [h]; rfl
  have hstrip := parseLoop_cells_strip useEmpty .AtCellStart 0 0 [] false [] data
  have hchain := tokScan_chain .AtCellStart 0 0 [] data
  rw [parse] at hcells
  rw [hcells] at hstrip
  simp only [List.map_nil, List.nil_append] at hstrip
  rw [← hstrip] at hchain
  simp only [chainPred, List.map_map] at hchain
  have hpos : (cells.map fun cell => (cell.row, cell.column)) =
      cells.map (tokPos ∘ Cell.strip) := by
    simp [tokPos, Cell.strip, Function.comp]
  rw [← hpos] at hchain
  exact hchain

/-- C1.  `Parser::parse` calls the sink in strict row-major order: for
every input and either policy toggle, when parsing succeeds the first
emitted cell is at `(0, 0)`; each successive emission is either at the
same row with the column incremented by exactly 1 or at column 0 of the
next row (so rows never decrease and every cell of a row precedes every
cell of later rows); and the emitted `(row, column)` pairs are strictly
increasing lexicographically, hence no position is emitted twice. -/
theorem parse_emits_strict_row_major (useEmpty : Bool) (data : List Char)
    (cells : List Cell) (h : parse useEmpty data = .ok cells) :
    (∀ first, cells.head? = some first → first.row = 0 ∧ first.column = 0) ∧
    (∀ i a b, cells[i]? = some a → cells[i + 1]? = some b →
      (b.row = a.row ∧ b.column = a.column + 1) ∨ (b.row = a.row + 1 ∧ b.column = 0)) ∧
    List.Pairwise (fun a b => a.row < b.row ∨ (a.row = b.row ∧ a.column < b.column)) cells := by
  have hchain := parse_ok_chain h
  refine ⟨?_, ?_, ?_⟩
  · intro first hfirst
    cases cells with
    | nil => simp at hfirst
    | cons cell cells' =>
      simp only [List.head?_cons, Option.some.injEq] at hfirst
      subst hfirst
      rw [List.map_cons] at hchain
      have := chainFrom_head hchain
      simp only [Prod.mk.injEq] at this
      exact ⟨this.1, this.2⟩
  · intro i a b ha hb
    have hpa : (cells.map fun cell => (cell.row, cell.column))[i]? = some (a.row, a.column) := by
      simp [List.getElem?_map, ha]
    have hpb : (cells.map fun cell => (cell.row, cell.column))[i + 1]? =
        some (b.row, b.column) := by
      simp [List.getElem?_map, hb]
    have := chainFrom_adjacent hchain i _ _ hpa hpb
    simpa [Prod.mk.injEq] using this
  · have := chainFrom_pairwise hchain
    rw [List.pairwise_map] at this
    simpa [lexLt] using this

/-- Witness for C1 at the concrete input `"a,b\nc"`. -/
theorem parse_emits_strict_row_major_witness :
    parse true "a,b\nc".toList = .ok
      [⟨0, 0, "a".toList, .UnquotedData⟩, ⟨0, 1, "b".toList, .UnquotedData⟩,
        ⟨1, 0, "c".toList, .UnquotedData⟩] ∧
    ((∀ first : Cell, ([⟨0, 0, "a".toList, .UnquotedData⟩, ⟨0, 1, "b".toList, .UnquotedData⟩,
        ⟨1, 0, "c".toList, .UnquotedData⟩] : List Cell).head? = some first →
        first.row = 0 ∧ first.column = 0) ∧
    (∀ (i : Nat) (a b : Cell),
        ([⟨0, 0, "a".toList, .UnquotedData⟩, ⟨0, 1, "b".toList, .UnquotedData⟩,
        ⟨1, 0, "c".toList, .UnquotedData⟩] : List Cell)[i]? = some a →
        ([⟨0, 0, "a".toList, .UnquotedData⟩, ⟨0, 1, "b".toList, .UnquotedData⟩,
        ⟨1, 0, "c".toList, .UnquotedData⟩] : List Cell)[i + 1]? = some b →
      (b.row = a.row ∧ b.column = a.column + 1) ∨ (b.row = a.row + 1 ∧ b.column = 0)) ∧
    List.Pairwise (fun a b : Cell => a.row < b.row ∨ (a.row = b.row ∧ a.column < b.column))
      ([⟨0, 0, "a".toList, .UnquotedData⟩, ⟨0, 1, "b".toList, .UnquotedData⟩,
        ⟨1, 0, "c".toList, .UnquotedData⟩] : List Cell)) :=
  ⟨by decide, parse_emits_strict_row_major true "a,b\nc".toList _ (by decide)⟩

/-- C2.  `Parser::parse` throws iff the specification-level scan finds
one of the malformed shapes — (1) a stray quote inside an unquoted token
(`StrayQuoteInUnquotedToken`), (3) a quoted value open at end of input
(`UnterminatedQuotedValue`), and (2)/(4) a non-whitespace, non-delimiter
character right after a closing quote (`JunkAfterQuotedValue`, which
also covers a quote "starting" an unquoted token, since a cell-initial
quote always opens a quoted value) — and the error carries the 0-based
row/column of the cell under construction.  `"\"abc"` fails at (0,0)
with nothing emitted; `"ab,cd,ef\n5,6,\"7"` fails at (1,2) with exactly
the five cells before the malformed one emitted, none after. -/
theorem parse_error_iff_malformed (useEmpty : Bool) (data : List Char) :
    ((parse useEmpty data).error =
      (specScan .AtCellStart 0 0 data).map fun f => ParseErr.mk f.row f.column) ∧
    parse true "\"abc".toList = .err ⟨0, 0⟩ [] ∧
    specScan .AtCellStart 0 0 "\"abc".toList = some ⟨.UnterminatedQuotedValue, 0, 0⟩ ∧
    parse true "ab,cd,ef\n5,6,\"7".toList =
      .err ⟨1, 2⟩ [⟨0, 0, "ab".toList, .UnquotedData⟩, ⟨0, 1, "cd".toList, .UnquotedData⟩,
        ⟨0, 2, "ef".toList, .UnquotedData⟩, ⟨1, 0, "5".toList, .UnquotedData⟩,
        ⟨1, 1, "6".toList, .UnquotedData⟩] ∧
    specScan .AtCellStart 0 0 "ab,cd,ef\n5,6,\"7".toList =
      some ⟨.UnterminatedQuotedValue, 1, 2⟩ :=
  ⟨parseLoop_error_eq_specScan useEmpty .AtCellStart 0 0 [] false [] data,
    by decide, by decide, by decide, by decide⟩

/-- C3.  A `CellReference` or `CellValue` built from `(text, hint)` has
type `Empty` for the `Empty` hint, always type `String` for the two
string hints (quoted content is never interpreted as numeric), and for
`UnquotedData` it has type `Double` exactly when the whole token reads
as a number — in which case it holds that number (`getDouble` agrees
with `readNumber<double>`) — else type `String`; `"5"` gives Double 5,
`"5a"` gives String `"5a"`, `" 5 "` gives Double 5. -/
theorem cell_type_resolution (text : List Char) :
    (CellReference.make text .Empty).getType = .Empty ∧
    (CellValue.make text .Empty).getType = .Empty ∧
    (CellReference.make text .StringWithEscapedQuotes).getType = .String ∧
    (CellReference.make text .StringWithoutEscapedQuotes).getType = .String ∧
    (CellValue.make text .StringWithEscapedQuotes).getType = .String ∧
    (CellValue.make text .StringWithoutEscapedQuotes).getType = .String ∧
    ((CellReference.make text .UnquotedData).getType = .Double ↔ (readNumberF text).isSome) ∧
    ((CellReference.make text .UnquotedData).getType = .String ↔ (readNumberF text) = none) ∧
    ((CellValue.make text .UnquotedData).getType = .Double ↔ (readNumberF text).isSome) ∧
    (CellReference.make text .UnquotedData).getDouble = readNumberF text ∧
    (CellValue.make text .UnquotedData).getDouble = readNumberF text ∧
    CellReference.make "5".toList .UnquotedData = .double (.finite 5) ∧
    CellReference.make "5a".toList .UnquotedData = .str "5a".toList false ∧
    CellReference.make " 5 ".toList .UnquotedData = .double (.finite 5) := by
  refine ⟨rfl, rfl, rfl, rfl, rfl, rfl, ?_, ?_, ?_, ?_, ?_, ?_, ?_, ?_⟩
  · cases h : readNumberF text <;>
      simp [CellReference.make, CellRefValue.getType, h]
  · cases h : readNumberF text <;>
      simp [CellReference.make, CellRefValue.getType, h]
  · cases h : readNumberF text <;>
      simp [CellValue.make, CellValValue.getType, h]
  · cases h : readNumberF text <;>
      simp [CellReference.make, CellRefValue.getDouble, h]
  · cases h : readNumberF text <;>
      simp [CellValue.make, CellValValue.getDouble, h]
  · have h5 : readNumberF ['5'] = some (.finite 5) := by
      simp [readNumberF, readNumPrep, toLowerChar, stodScan, isStrtodSpace, scanSign,
        scanFloatBody, scanDecExponent, scanNanSeq, significandVal, decDigitsVal,
        FloatVal.applySign]
    simp [CellReference.make, h5]
  · have h5a : readNumberF ['5', 'a'] = none := by decide
    simp [CellReference.make, h5a]
  · have h5sp : readNumberF [' ', '5', ' '] = some (.finite 5) := by
      simp [readNumberF, readNumPrep, toLowerChar, stodScan, isStrtodSpace, scanSign,
        scanFloatBody, scanDecExponent, scanNanSeq, significandVal, decDigitsVal,
        FloatVal.applySign]
    simp [CellReference.make, h5sp]

/-- C4.  `readNumber` accepts a token only when the conversion consumes
the entire right-trimmed, lowercased token (`num_processed == s.size()`),
for both the floating-point and the integer target families; `"5a"` and
`"5 a"` are rejected by both, and `"5e+6"`, `"inf"`, `"nan"` are
rejected by the integer targets while accepted by the floating-point
ones.  Failure is an empty optional — the embedding is a total function,
mirroring the `try`/`catch` that converts every exception to an empty
result. -/
theorem readNumber_entire_token (cell : List Char) :
    ((readNumberF cell).isSome ↔
      ∃ v, stodScan (readNumPrep cell) = some (v, (readNumPrep cell).length)) ∧
    ((readNumberI cell).isSome ↔
      ∃ v, stolScan (readNumPrep cell) = some (v, (readNumPrep cell).length)) ∧
    readNumberF "5a".toList = none ∧
    readNumberF "5 a".toList = none ∧
    readNumberI "5a".toList = none ∧
    readNumberI "5 a".toList = none ∧
    readNumberI "5e+6".toList = none ∧
    readNumberI "inf".toList = none ∧
    readNumberI "nan".toList = none ∧
    readNumberF "5e+6".toList = some (.finite 5000000) ∧
    readNumberF "inf".toList = some (.inf false) ∧
    readNumberF "nan".toList = some .nan := by
  refine ⟨?_, ?_, by decide, by decide, by decide, by decide, by decide, by decide,
    by decide, ?_, by decide, by decide⟩
  · constructor
    · intro h
      match hscan : stodScan (readNumPrep cell) with
      | none => simp [readNumberF, hscan] at h
      | some (v, n) =>
        simp only [readNumberF, hscan] at h
        split at h
        · next heq => exact ⟨v, by rw [heq]⟩
        · simp at h
    · rintro ⟨v, hv⟩
      simp [readNumberF, hv]
  · constructor
    · intro h
      match hscan : stolScan (readNumPrep cell) with
      | none => simp [readNumberI, hscan] at h
      | some (v, n) =>
        simp only [readNumberI, hscan] at h
        split at h
        · next heq => exact ⟨v, by rw [heq]⟩
        · simp at h
    · rintro ⟨v, hv⟩
      simp [readNumberI, hv]
  · simp [readNumberF, readNumPrep, toLowerChar, stodScan, isStrtodSpace, scanSign,
      scanFloatBody, scanDecExponent, scanNanSeq, significandVal, decDigitsVal,
      FloatVal.applySign]
    norm_num

/-- C5.  `cleanString` is a single left-to-right pass: the empty string
maps to itself, a pair of adjacent double-quotes is replaced by one
double-quote, and any other character is copied verbatim; consequently a
string without double-quotes is left unchanged, while the function is
not idempotent in general (witness: four quotes collapse to two, then to
one). -/
theorem cleanString_collapse_spec :
    cleanString [] = [] ∧
    (∀ rest : List Char, cleanString ('\"' :: '\"' :: rest) = '\"' :: cleanString rest) ∧
    (∀ (c : Char) (rest : List Char), c ≠ '\"' →
      cleanString (c :: rest) = c :: cleanString rest) ∧
    (∀ s : List Char, '\"' ∉ s → cleanString s = s) ∧
    cleanString (cleanString "\"\"\"\"".toList) ≠ cleanString "\"\"\"\"".toList := by
  have hstep : ∀ (c : Char) (rest : List Char), c ≠ '\"' →
      cleanString (c :: rest) = c :: cleanString rest := by
    intro c rest hc
    rw [cleanString.eq_def]
    split <;> simp_all
  refine ⟨rfl, fun rest => rfl, hstep, ?_, by decide⟩
  intro s hs
  induction s with
  | nil => rfl
  | cons c rest ih =>
    simp only [List.mem_cons, not_or] at hs
    rw [hstep c rest (Ne.symm hs.1), ih hs.2]

/-- Witness for C5's quote-free clause at `"ab"`. -/
theorem cleanString_collapse_spec_witness :
    cleanString "ab".toList = "ab".toList :=
  cleanString_collapse_spec.2.2.2.1 "ab".toList (by decide)

/-- C8.  The `useEmptyCellType` policy toggle is applied only at
emission time: for every input, both settings produce the same error
behavior and the same emitted cells up to hints (same count, positions
and texts).  On the input `","` exactly two cells are emitted, at
(0,0) and (0,1), both with empty text, carrying the `Empty` hint when
the toggle is on and `StringWithoutEscapedQuotes` when it is off. -/
theorem useEmptyCellType_toggle (data : List Char) :
    (parse true data).cells.map Cell.strip = (parse false data).cells.map Cell.strip ∧
    (parse true data).error = (parse false data).error ∧
    parse true ",".toList = .ok [⟨0, 0, [], .Empty⟩, ⟨0, 1, [], .Empty⟩] ∧
    parse false ",".toList = .ok [⟨0, 0, [], .StringWithoutEscapedQuotes⟩,
      ⟨0, 1, [], .StringWithoutEscapedQuotes⟩] := by
  refine ⟨?_, ?_, by decide, by decide⟩
  · rw [parse, parse, parseLoop_cells_strip, parseLoop_cells_strip]
  · rw [parse, parse, parseLoop_error_eq_specScan, parseLoop_error_eq_specScan]

/-- C9.  When parsing throws, every assembly wrapper leaves the
caller-supplied output container exactly as it was: cells are
accumulated in a function-local container that replaces the output
argument only after `parse` returns successfully. -/
theorem parse_error_leaves_output_untouched (useEmpty : Bool) (data : List Char)
    (e : ParseErr) (emitted : List Cell) (h : parse useEmpty data = .err e emitted)
    (old2d : List (List (Option Payload))) (old oldCM : List (Option Payload))
    (columns : Option Nat) (rows : Nat) :
    parseTo2DVectorRun useEmpty data old2d = (some e, old2d) ∧
    parseToVectorRowMajorRun useEmpty data old columns = ⟨some e, old, {}, false⟩ ∧
    parseToVectorColumnMajorRun useEmpty data oldCM rows = ⟨some e, oldCM, {}, false⟩ := by
  refine ⟨?_, ?_, ?_⟩
  · rw [parseTo2DVectorRun, h]
  · rw [parseToVectorRowMajorRun, h]
  · rw [parseToVectorColumnMajorRun, h]

/-- Witness for C9 at the erroring input `"\"abc"` with non-empty
pre-existing containers. -/
theorem parse_error_leaves_output_untouched_witness :
    parseTo2DVectorRun true "\"abc".toList [[some ("x".toList, .UnquotedData)]] =
      (some ⟨0, 0⟩, [[some ("x".toList, .UnquotedData)]]) ∧
    parseToVectorRowMajorRun true "\"abc".toList [some ("y".toList, .Empty)] (some 2) =
      ⟨some ⟨0, 0⟩, [some ("y".toList, .Empty)], {}, false⟩ ∧
    parseToVectorColumnMajorRun true "\"abc".toList [none] 3 =
      ⟨some ⟨0, 0⟩, [none], {}, false⟩ :=
  parse_error_leaves_output_untouched true "\"abc".toList ⟨0, 0⟩ [] (by decide)
    [[some ("x".toList, .UnquotedData)]] [some ("y".toList, .Empty)] [none] (some 2) 3

/-- C10.  The collapsed form of a string is never longer than the
original; `prepareBuffer` yields an invalid buffer exactly when the
buffer size is smaller than the input's size; hence for a buffer size of
at least `getRequiredBufferSize` (the original view's size)
`getCleanStringBuffer` is always valid and `getStringView`'s
out-of-range throw is unreachable. -/
theorem clean_buffer_safety :
    (∀ s : List Char, (cleanString s).length ≤ s.length) ∧
    (∀ (Size : Nat) (input : List Char) (has_escaped_quotes : Bool),
      ((prepareBuffer Size input has_escaped_quotes).valid = false ↔ Size < input.length)) ∧
    (∀ (BufferSize : Nat) (value : List Char) (has_escaped_quotes : Bool),
      getRequiredBufferSize value ≤ BufferSize →
      (getCleanStringBuffer BufferSize value has_escaped_quotes).valid = true ∧
      ∃ s, (getCleanStringBuffer BufferSize value has_escaped_quotes).getStringView = some s) := by
  have hlen : ∀ s : List Char, (cleanString s).length ≤ s.length := by
    intro s
    induction s using cleanString.induct <;> simp_all [cleanString]
    omega
  have hvalid : ∀ (Size : Nat) (input : List Char) (hq : Bool),
      ((prepareBuffer Size input hq).valid = false ↔ Size < input.length) := by
    intro Size input hq
    rw [prepareBuffer]
    split
    · next hlt => simpa using hlt
    · next hlt =>
        split <;> simp
        all_goals omega
  refine ⟨hlen, hvalid, ?_⟩
  intro BufferSize value hq hge
  have : ¬ BufferSize < value.length := by
    simp only [getRequiredBufferSize] at hge
    omega
  have hv : (getCleanStringBuffer BufferSize value hq).valid = true := by
    rw [getCleanStringBuffer]
    rcases Bool.eq_false_or_eq_true (prepareBuffer BufferSize value hq).valid with ht | hf
    · exact ht
    · exact absurd ((hvalid BufferSize value hq).mp hf) this
  refine ⟨hv, ⟨(getCleanStringBuffer BufferSize value hq).content, ?_⟩⟩
  rw [Buffer.getStringView, hv]
  simp

/-- Witness for C10's validity clause at buffer size 4 and a 3-character
view with an escaped quote. -/
theorem clean_buffer_safety_witness :
    (getCleanStringBuffer 4 "a\"\"".toList true).valid = true ∧
    ∃ s, (getCleanStringBuffer 4 "a\"\"".toList true).getStringView = some s :=
  clean_buffer_safety.2.2 4 "a\"\"".toList true (by decide)

set_option maxHeartbeats 1000000 in
/-- A run that returns normally from any emitting state — any state
other than `AfterQuotedValue`, with input remaining when at a cell
start — makes at least one sink call. -/
theorem parseLoop_ok_emits (u : Bool) (cells : List Cell) :
    ∀ (ms : MachineState) (r c : Nat) (cur : List Char) (esc : Bool) (acc : List Cell)
      (input : List Char),
      parseLoop u ms r c cur esc acc input = .ok cells →
      (ms = .AtCellStart → input ≠ []) → ms ≠ .AfterQuotedValue →
      tokScan ms r c cur input ≠ [] := by
  intro ms r c cur esc acc input
  induction ms, r, c, cur, esc, acc, input using parseLoop.induct u <;>
    intro h hstart hms <;>
    first
      | exact absurd rfl hms
      | exact absurd rfl (hstart rfl)
      | (simp only [tokScan]; exact List.cons_ne_nil _ _)
      | (simp only [parseLoop] at h; exact absurd h (by simp))
      | (rename_i ih
         simp only [parseLoop] at h
         simp only [tokScan]
         exact ih h (by simp) (by simp))

/-- A successful parse of a non-empty input emits at least one cell. -/
theorem parse_ok_nonempty {useEmpty : Bool} {data : List Char} {cells : List Cell}
    (hok : parse useEmpty data = .ok cells) (hdata : data ≠ []) : cells ≠ [] := by
  have hstrip := parseLoop_cells_strip useEmpty .AtCellStart 0 0 [] false [] data
  rw [parse] at hok
  rw [hok] at hstrip
  simp only [ParseOutcome.cells, List.map_nil, List.nil_append] at hstrip
  have htok := parseLoop_ok_emits useEmpty cells .AtCellStart 0 0 [] false [] data hok
    (fun _ => hdata) (by simp)
  intro hnil
  rw [hnil] at hstrip
  exact htok (by simpa using hstrip.symm)

theorem resizeDef_length {α : Type} (d : α) (l : List α) (n : Nat) :
    (resizeDef d l n).length = n := by
  simp only [resizeDef, List.length_append, List.length_take, List.length_replicate]
  omega

theorem resizeDef_grow_getElem? {α : Type} (d : α) {l : List α} {n : Nat}
    (h : l.length ≤ n) (i : Nat) :
    (resizeDef d l n)[i]? = if i < l.length then l[i]? else if i < n then some d else none := by
  rw [resizeDef, List.take_of_length_le h]
  by_cases h1 : i < l.length
  · rw [List.getElem?_append_left h1, if_pos h1]
  · rw [List.getElem?_append_right (Nat.le_of_not_lt h1), if_neg h1, List.getElem?_replicate]
    by_cases h2 : i < n
    · rw [if_pos (by omega), if_pos h2]
    · rw [if_neg (by omega), if_neg h2]

theorem resizeDef_grow_getD {α : Type} (d : α) {l : List α} {n : Nat}
    (h : l.length ≤ n) (i : Nat) :
    (resizeDef d l n).getD i d = l.getD i d := by
  rw [List.getD_eq_getElem?_getD, List.getD_eq_getElem?_getD, resizeDef_grow_getElem? d h i]
  by_cases h1 : i < l.length
  · rw [if_pos h1]
  · rw [if_neg h1, List.getElem?_eq_none (by omega)]
    by_cases h2 : i < n
    · rw [if_pos h2]; rfl
    · rw [if_neg h2]

theorem getElem?_eq_some_getD {α : Type} (d : α) {l : List α} {i : Nat}
    (h : i < l.length) : l[i]? = some (l.getD i d) := by
  rw [List.getD_eq_getElem?_getD, List.getElem?_eq_getElem h]
  rfl

/-- Uniqueness of the flat-index decomposition `a * R + b` with `b < R`. -/
theorem flatIdx_inj {R a1 b1 a2 b2 : Nat} (h1 : b1 < R) (h2 : b2 < R)
    (h : a1 * R + b1 = a2 * R + b2) : a1 = a2 ∧ b1 = b2 := by
  have hR : 0 < R := by omega
  have ha : a1 = a2 := by
    have e1 : (a1 * R + b1) / R = a1 := by
      rw [Nat.mul_comm a1 R, Nat.mul_add_div hR, Nat.div_eq_of_lt h1]
      omega
    have e2 : (a2 * R + b2) / R = a2 := by
      rw [Nat.mul_comm a2 R, Nat.mul_add_div hR, Nat.div_eq_of_lt h2]
      omega
    rw [← e1, ← e2, h]
  refine ⟨ha, ?_⟩
  subst ha
  omega

theorem mem_le_numRows {cells : List Cell} {cell : Cell} (h : cell ∈ cells) :
    cell.row + 1 ≤ numRows cells := by
  induction cells with
  | nil => cases h
  | cons c cs ih =>
    rcases List.mem_cons.mp h with rfl | hm
    · simp [numRows]
    · have := ih hm
      simp only [numRows, List.foldr_cons] at *
      omega

theorem mem_le_numCols {cells : List Cell} {cell : Cell} (h : cell ∈ cells) :
    cell.column + 1 ≤ numCols cells := by
  induction cells with
  | nil => cases h
  | cons c cs ih =>
    rcases List.mem_cons.mp h with rfl | hm
    · simp [numCols]
    · have := ih hm
      simp only [numCols, List.foldr_cons] at *
      omega

theorem numCols_pos {cells : List Cell} (h : cells ≠ []) : 0 < numCols cells := by
  match cells with
  | c :: cs => simp only [numCols, List.foldr_cons]; omega

theorem numRows_pos {cells : List Cell} (h : cells ≠ []) : 0 < numRows cells := by
  match cells with
  | c :: cs => simp only [numRows, List.foldr_cons]; omega

theorem max_mul_right_distrib (a b r : Nat) : max (a * r) (b * r) = max a b * r := by
  rcases Nat.le_total a b with hle | hle
  · rw [Nat.max_eq_right hle, Nat.max_eq_right (Nat.mul_le_mul_right r hle)]
  · rw [Nat.max_eq_left hle, Nat.max_eq_left (Nat.mul_le_mul_right r hle)]

theorem cmNeeded_eq (rows : Nat) (cells : List Cell) :
    cmNeeded rows cells = numCols cells * rows := by
  induction cells with
  | nil => simp [cmNeeded, numCols]
  | cons c cs ih =>
    simp only [cmNeeded, numCols, List.foldr_cons] at *
    rw [ih, max_mul_right_distrib]

/-- Characterization of one column-major sink step for an in-range row:
the vector is grown when needed and the cell is written at its
column-major index; the out-of-bounds marker is untouched. -/
theorem cmStep_eq (rows : Nat) (st : List (Option Payload) × Bool) (cell : Cell)
    (h : cell.row < rows) :
    cmStep rows st cell =
      ((if st.1.length < (cell.column + 1) * rows then
          resizeDef none st.1 ((cell.column + 1) * rows) else st.1).set
        (cmIdx rows cell) (some (cell.text, cell.hint)), st.2) := by
  have hexp : (cell.column + 1) * rows = cell.column * rows + rows := by ring
  have hlen : cmIdx rows cell <
      (if st.1.length < (cell.column + 1) * rows then
        resizeDef none st.1 ((cell.column + 1) * rows) else st.1).length := by
    split
    · rw [resizeDef_length]
      simp only [cmIdx]
      omega
    · next hge =>
      simp only [cmIdx]
      omega
  simp only [cmStep, cmIdx] at hlen ⊢
  rw [if_pos hlen]

theorem cmStep_length (rows : Nat) (st : List (Option Payload) × Bool) (cell : Cell)
    (h : cell.row < rows) :
    (cmStep rows st cell).1.length = max st.1.length ((cell.column + 1) * rows) := by
  rw [cmStep_eq rows st cell h]
  simp only [List.length_set]
  split
  · rw [resizeDef_length]; omega
  · omega

theorem cmFold_snd (rows : Nat) (cells : List Cell) (st : List (Option Payload) × Bool)
    (h : ∀ cell ∈ cells, cell.row < rows) :
    (cells.foldl (cmStep rows) st).2 = st.2 := by
  induction cells generalizing st with
  | nil => rfl
  | cons c cs ih =>
    rw [List.foldl_cons, ih _ (fun x hx => h x (List.mem_cons_of_mem _ hx)),
      cmStep_eq rows st c (h c (List.mem_cons_self _ _))]

theorem cmFold_length (rows : Nat) (cells : List Cell) (st : List (Option Payload) × Bool)
    (h : ∀ cell ∈ cells, cell.row < rows) :
    (cells.foldl (cmStep rows) st).1.length = max st.1.length (cmNeeded rows cells) := by
  induction cells generalizing st with
  | nil => simp [cmNeeded]
  | cons c cs ih =>
    rw [List.foldl_cons, ih _ (fun x hx => h x (List.mem_cons_of_mem _ hx)),
      cmStep_length rows st c (h c (List.mem_cons_self _ _))]
    simp only [cmNeeded, List.foldr_cons]
    omega

theorem cmFold_untouched (rows : Nat) (cells : List Cell)
    (st : List (Option Payload) × Bool) (i : Nat)
    (hrow : ∀ cell ∈ cells, cell.row < rows)
    (hno : ∀ cell ∈ cells, cmIdx rows cell ≠ i) :
    (cells.foldl (cmStep rows) st).1.getD i none = st.1.getD i none := by
  induction cells generalizing st with
  | nil => rfl
  | cons c cs ih =>
    rw [List.foldl_cons,
      ih _ (fun x hx => hrow x (List.mem_cons_of_mem _ hx))
        (fun x hx => hno x (List.mem_cons_of_mem _ hx)),
      cmStep_eq rows st c (hrow c (List.mem_cons_self _ _))]
    have hne : cmIdx rows c ≠ i := hno c (List.mem_cons_self _ _)
    rw [List.getD_eq_getElem?_getD, List.getElem?_set_ne hne, ← List.getD_eq_getElem?_getD]
    split
    · next hlt => exact resizeDef_grow_getD none (Nat.le_of_lt hlt) i
    · rfl

theorem cmFold_lands (rows : Nat) (cells : List Cell)
    (st : List (Option Payload) × Bool)
    (hrow : ∀ c ∈ cells, c.row < rows)
    (hdist : cells.Pairwise (fun a b => cmIdx rows a ≠ cmIdx rows b))
    {cell : Cell} (hc : cell ∈ cells) :
    (cells.foldl (cmStep rows) st).1.getD (cmIdx rows cell) none =
      some (cell.text, cell.hint) := by
  induction cells generalizing st with
  | nil => cases hc
  | cons c cs ih =>
    rw [List.foldl_cons]
    rcases List.mem_cons.mp hc with rfl | hmem
    · have hno : ∀ x ∈ cs, cmIdx rows x ≠ cmIdx rows cell := by
        intro x hx
        exact Ne.symm ((List.pairwise_cons.mp hdist).1 x hx)
      rw [cmFold_untouched rows cs _ _ (fun x hx => hrow x (List.mem_cons_of_mem _ hx)) hno,
        cmStep_eq rows st cell (hrow cell (List.mem_cons_self _ _))]
      have hlen : cmIdx rows cell <
          (if st.1.length < (cell.column + 1) * rows then
            resizeDef none st.1 ((cell.column + 1) * rows) else st.1).length := by
        have hexp : (cell.column + 1) * rows = cell.column * rows + rows := by ring
        have := hrow cell (List.mem_cons_self _ _)
        split
        · rw [resizeDef_length]
          simp only [cmIdx]
          omega
        · next hge =>
          simp only [cmIdx]
          omega
      rw [List.getD_eq_getElem?_getD, List.getElem?_set_eq_of_lt _ hlen]
      rfl
    · exact ih _ (fun x hx => hrow x (List.mem_cons_of_mem _ hx))
        (List.pairwise_cons.mp hdist).2 hmem

/-- Positions of distinct emitted cells have distinct column-major
indices when all rows are below `rows`. -/
theorem parse_ok_cm_distinct {useEmpty : Bool} {data : List Char} {cells : List Cell}
    (hok : parse useEmpty data = .ok cells) (rows : Nat)
    (hrow : ∀ cell ∈ cells, cell.row < rows) :
    cells.Pairwise (fun a b => cmIdx rows a ≠ cmIdx rows b) := by
  have hpw := chainFrom_pairwise (parse_ok_chain hok)
  rw [List.pairwise_map] at hpw
  refine List.Pairwise.imp_of_mem ?_ hpw
  intro a b ha hb hlex heq
  obtain ⟨hcol, hrow'⟩ := flatIdx_inj (hrow a ha) (hrow b hb) heq
  simp only [lexLt] at hlex
  omega

/-- C7.  Flat column-major assembly with an explicit row count larger
than the actual number of data rows: on every non-empty input whose
parse succeeds, the call completes without error and without
out-of-bounds writes, the final flat size is `columns * rows`, the
returned information carries the supplied row count, the column count
equal to the final flat size divided by the supplied row count, and
column-major order; every emitted cell lands at `column * rows + row`
and the trailing rows of the last column hold default-initialized
entries. -/
theorem parseToVectorColumnMajor_pads (useEmpty : Bool) (data : List Char)
    (old : List (Option Payload)) (cells : List Cell) (rows : Nat)
    (hok : parse useEmpty data = .ok cells) (hdata : data ≠ [])
    (hrows : numRows cells < rows) :
    (parseToVectorColumnMajorRun useEmpty data old rows).error = none ∧
    (parseToVectorColumnMajorRun useEmpty data old rows).oob = false ∧
    (parseToVectorColumnMajorRun useEmpty data old rows).values.length =
      (parseToVectorColumnMajorRun useEmpty data old rows).info.columns * rows ∧
    (parseToVectorColumnMajorRun useEmpty data old rows).info.rows = rows ∧
    (parseToVectorColumnMajorRun useEmpty data old rows).info.columns =
      (parseToVectorColumnMajorRun useEmpty data old rows).values.length / rows ∧
    (parseToVectorColumnMajorRun useEmpty data old rows).info.order = .ColumnMajor ∧
    (∀ cell ∈ cells,
      (parseToVectorColumnMajorRun useEmpty data old rows).values[cell.column * rows +
        cell.row]? = some (some (cell.text, cell.hint))) ∧
    (∀ r, numRows cells ≤ r → r < rows →
      (parseToVectorColumnMajorRun useEmpty data old rows).values[(numCols cells - 1) *
        rows + r]? = some none) := by
  have hcne : cells ≠ [] := parse_ok_nonempty hok hdata
  have hrowlt : ∀ cell ∈ cells, cell.row < rows := by
    intro cell hc
    have := mem_le_numRows hc
    omega
  have hlen : (cells.foldl (cmStep rows) ([], false)).1.length = numCols cells * rows := by
    rw [cmFold_length rows cells ([], false) hrowlt]
    simp [cmNeeded_eq]
  have hpos : 0 < numCols cells * rows := by
    have h1 := numCols_pos hcne
    have h2 := numRows_pos hcne
    exact Nat.mul_pos h1 (by omega)
  have hne : (cells.foldl (cmStep rows) ([], false)).1 ≠ [] := by
    intro hnil
    rw [hnil] at hlen
    simp only [List.length_nil] at hlen
    omega
  have hres : parseToVectorColumnMajorRun useEmpty data old rows =
      { error := none, values := (cells.foldl (cmStep rows) ([], false)).1,
        info := MatrixInformation.mk rows
          (if rows = 0 then 0 else (cells.foldl (cmStep rows) ([], false)).1.length / rows)
          .ColumnMajor,
        oob := (cells.foldl (cmStep rows) ([], false)).2 } := by
    rw [parseToVectorColumnMajorRun, hok]
    simp only [if_neg hne]
  have hrows0 : rows ≠ 0 := by
    have := numRows_pos hcne
    omega
  have hdiv : numCols cells * rows / rows = numCols cells :=
    Nat.mul_div_cancel (numCols cells) (by omega)
  rw [hres]
  refine ⟨rfl, ?_, ?_, rfl, ?_, rfl, ?_, ?_⟩
  · exact cmFold_snd rows cells ([], false) hrowlt
  · simp only [hlen, if_neg hrows0, hdiv]
  · simp only [hlen, if_neg hrows0, hdiv]
  · intro cell hc
    have hland := cmFold_lands rows cells ([], false) hrowlt
      (parse_ok_cm_distinct hok rows hrowlt) hc
    have hbound : cmIdx rows cell < (cells.foldl (cmStep rows) ([], false)).1.length := by
      rw [hlen]
      have h1 := mem_le_numCols hc
      have h2 := hrowlt cell hc
      have hmul : (cell.column + 1) * rows ≤ numCols cells * rows :=
        Nat.mul_le_mul_right rows h1
      have hexp : (cell.column + 1) * rows = cell.column * rows + rows := by ring
      simp only [cmIdx]
      omega
    simp only [cmIdx] at hland hbound
    rw [getElem?_eq_some_getD none hbound, hland]
  · intro r hr1 hr2
    obtain ⟨m, hm⟩ : ∃ m, numCols cells = m + 1 :=
      ⟨numCols cells - 1, by have := numCols_pos hcne; omega⟩
    have hm1 : numCols cells - 1 = m := by omega
    have hnotouch : ∀ cell ∈ cells, cmIdx rows cell ≠ (numCols cells - 1) * rows + r := by
      intro cell hc heq
      obtain ⟨hcol, hrow'⟩ := flatIdx_inj (hrowlt cell hc) hr2 heq
      have := mem_le_numRows hc
      omega
    have huntouched := cmFold_untouched rows cells ([], false) _ hrowlt hnotouch
    have hbound : (numCols cells - 1) * rows + r <
        (cells.foldl (cmStep rows) ([], false)).1.length := by
      rw [hlen, hm]
      simp only [Nat.add_sub_cancel]
      have hexp : (m + 1) * rows = m * rows + rows := by ring
      omega
    rw [getElem?_eq_some_getD none hbound, huntouched]
    rfl

/-- Witness for C7 at `"a,b\nc,d"` with three requested rows (actual: two). -/
theorem parseToVectorColumnMajor_pads_witness :
    (parseToVectorColumnMajorRun true "a,b\nc,d".toList [] 3).error = none ∧
    (parseToVectorColumnMajorRun true "a,b\nc,d".toList [] 3).oob = false ∧
    (parseToVectorColumnMajorRun true "a,b\nc,d".toList [] 3).values.length =
      (parseToVectorColumnMajorRun true "a,b\nc,d".toList [] 3).info.columns * 3 ∧
    (parseToVectorColumnMajorRun true "a,b\nc,d".toList [] 3).info.rows = 3 ∧
    (parseToVectorColumnMajorRun true "a,b\nc,d".toList [] 3).info.columns =
      (parseToVectorColumnMajorRun true "a,b\nc,d".toList [] 3).values.length / 3 ∧
    (parseToVectorColumnMajorRun true "a,b\nc,d".toList [] 3).info.order = .ColumnMajor ∧
    (∀ cell ∈ ([⟨0, 0, "a".toList, .UnquotedData⟩, ⟨0, 1, "b".toList, .UnquotedData⟩,
        ⟨1, 0, "c".toList, .UnquotedData⟩, ⟨1, 1, "d".toList, .UnquotedData⟩] : List Cell),
      (parseToVectorColumnMajorRun true "a,b\nc,d".toList []
        3).values[cell.column * 3 + cell.row]? = some (some (cell.text, cell.hint))) ∧
    (∀ r, numRows ([⟨0, 0, "a".toList, .UnquotedData⟩, ⟨0, 1, "b".toList, .UnquotedData⟩,
        ⟨1, 0, "c".toList, .UnquotedData⟩, ⟨1, 1, "d".toList, .UnquotedData⟩] : List Cell) ≤ r →
      r < 3 →
      (parseToVectorColumnMajorRun true "a,b\nc,d".toList []
        3).values[(numCols ([⟨0, 0, "a".toList, .UnquotedData⟩, ⟨0, 1, "b".toList, .UnquotedData⟩,
          ⟨1, 0, "c".toList, .UnquotedData⟩, ⟨1, 1, "d".toList, .UnquotedData⟩] : List Cell) - 1) *
          3 + r]? = some none) :=
  parseToVectorColumnMajor_pads true "a,b\nc,d".toList []
    [⟨0, 0, "a".toList, .UnquotedData⟩, ⟨0, 1, "b".toList, .UnquotedData⟩,
      ⟨1, 0, "c".toList, .UnquotedData⟩, ⟨1, 1, "d".toList, .UnquotedData⟩] 3
    (by decide) (by decide) (by decide)

theorem resizeDef_succ {α : Type} (d : α) (l : List α) :
    resizeDef d l (l.length + 1) = l ++ [d] := by
  simp [resizeDef, List.take_of_length_le (Nat.le_succ _)]

theorem rmNeeded_eq (k : Nat) (cells : List Cell) :
    rmNeeded k cells = numRows cells * k := by
  induction cells with
  | nil => simp [rmNeeded, numRows]
  | cons c cs ih =>
    simp only [rmNeeded, numRows, List.foldr_cons] at *
    rw [ih, max_mul_right_distrib]

theorem numRows_append (a b : List Cell) :
    numRows (a ++ b) = max (numRows a) (numRows b) := by
  induction a with
  | nil => simp [numRows]
  | cons c cs ih =>
    simp only [numRows, List.cons_append, List.foldr_cons] at *
    rw [ih]
    omega

/-- Characterization of one row-major sink step after the column count
has been committed (`unknown_columns` is false), for a cell whose column
is in range: the vector is grown when needed and the cell is written at
its row-major index; the other state fields are untouched. -/
theorem rmStep_committed_eq (vs : List (Option Payload)) (rc k : Nat) (ob : Bool)
    (cell : Cell) (hcol : cell.column < k) :
    rmStep ⟨vs, false, rc, k, ob⟩ cell =
      ⟨(if vs.length < (cell.row + 1) * k then resizeDef none vs ((cell.row + 1) * k)
          else vs).set (rmIdx k cell) (some (cell.text, cell.hint)), false, rc, k, ob⟩ := by
  have hexp : (cell.row + 1) * k = cell.row * k + k := by ring
  simp only [rmStep, Bool.false_eq_true, if_false, true_and, rmIdx]
  by_cases hres : vs.length < (cell.row + 1) * k
  · simp only [if_pos hres]
    rw [if_pos (by rw [resizeDef_length]; omega)]
  · simp only [if_neg hres]
    rw [if_pos (by omega)]

/-- A committed row-major fold keeps the committed state, never goes
out of bounds, reaches exactly the needed size, and leaves indices not
written by any cell at their previous (or default) contents. -/
theorem rmFold_committed (cells : List Cell) (vs : List (Option Payload)) (rc k : Nat)
    (ob : Bool) (hcol : ∀ cell ∈ cells, cell.column < k) :
    ∃ vs', cells.foldl rmStep ⟨vs, false, rc, k, ob⟩ = ⟨vs', false, rc, k, ob⟩ ∧
      vs'.length = max vs.length (rmNeeded k cells) ∧
      (∀ i, (∀ cell ∈ cells, rmIdx k cell ≠ i) → vs'.getD i none = vs.getD i none) := by
  induction cells generalizing vs with
  | nil => exact ⟨vs, rfl, by simp [rmNeeded], fun i _ => rfl⟩
  | cons c cs ih =>
    rw [List.foldl_cons, rmStep_committed_eq vs rc k ob c (hcol c (List.mem_cons_self _ _))]
    obtain ⟨vs', heq, hlen, huntouched⟩ :=
      ih _ (fun x hx => hcol x (List.mem_cons_of_mem _ hx))
    refine ⟨vs', heq, ?_, ?_⟩
    · rw [hlen]
      simp only [List.length_set, rmNeeded, List.foldr_cons]
      split
      · rw [resizeDef_length]
        omega
      · omega
    · intro i hno
      rw [huntouched i (fun x hx => hno x (List.mem_cons_of_mem _ hx))]
      have hne : rmIdx k c ≠ i := hno c (List.mem_cons_self _ _)
      rw [List.getD_eq_getElem?_getD, List.getElem?_set_ne hne, ← List.getD_eq_getElem?_getD]
      split
      · next hlt => exact resizeDef_grow_getD none (Nat.le_of_lt hlt) i
      · rfl

/-- In a committed row-major fold with pairwise-distinct indices, every
cell's payload ends up at its row-major index. -/
theorem rmFold_committed_lands (cells : List Cell) (vs : List (Option Payload))
    (rc k : Nat) (ob : Bool) (hcol : ∀ c ∈ cells, c.column < k)
    (hdist : cells.Pairwise (fun a b => rmIdx k a ≠ rmIdx k b)) {cell : Cell}
    (hc : cell ∈ cells) :
    (cells.foldl rmStep ⟨vs, false, rc, k, ob⟩).values.getD (rmIdx k cell) none =
      some (cell.text, cell.hint) := by
  induction cells generalizing vs with
  | nil => cases hc
  | cons c cs ih =>
    rw [List.foldl_cons, rmStep_committed_eq vs rc k ob c (hcol c (List.mem_cons_self _ _))]
    rcases List.mem_cons.mp hc with rfl | hmem
    · have hno : ∀ x ∈ cs, rmIdx k x ≠ rmIdx k cell := by
        intro x hx
        exact Ne.symm ((List.pairwise_cons.mp hdist).1 x hx)
      obtain ⟨vs', heq, _hlen, huntouched⟩ :=
        rmFold_committed cs _ rc k ob (fun x hx => hcol x (List.mem_cons_of_mem _ hx))
      rw [heq]
      simp only
      rw [huntouched _ hno]
      have hlen2 : rmIdx k cell <
          (if vs.length < (cell.row + 1) * k then
            resizeDef none vs ((cell.row + 1) * k) else vs).length := by
        have hexp : (cell.row + 1) * k = cell.row * k + k := by ring
        have := hcol cell (List.mem_cons_self _ _)
        split
        · rw [resizeDef_length]
          simp only [rmIdx]
          omega
        · next hge =>
          simp only [rmIdx]
          omega
      rw [List.getD_eq_getElem?_getD, List.getElem?_set_eq_of_lt _ hlen2]
      rfl
    · exact ih _ (fun x hx => hcol x (List.mem_cons_of_mem _ hx))
        (List.pairwise_cons.mp hdist).2 hmem

/-- The first row-1 cell commits the inferred column count: stepping an
uncommitted state on it equals stepping the committed state whose column
count is the accumulated `read_columns`. -/
theorem rmStep_commit (vs : List (Option Payload)) (rc k0 : Nat) (ob : Bool)
    (cell : Cell) (hrow : cell.row = 1) :
    rmStep ⟨vs, true, rc, k0, ob⟩ cell = rmStep ⟨vs, false, rc, rc, ob⟩ cell := by
  simp [rmStep, hrow]

/-- While the column count is unknown, the row-0 cells — at consecutive
columns continuing the current vector — each grow the vector by one slot
and write themselves into it, tracking `read_columns`. -/
theorem rmFold_block (block : List Cell) (vs : List (Option Payload)) (rc : Nat)
    (hb : ∀ i (h : i < block.length), (block.get ⟨i, h⟩).row = 0 ∧
      (block.get ⟨i, h⟩).column = vs.length + i) :
    block.foldl rmStep ⟨vs, true, rc, 0, false⟩ =
      ⟨vs ++ block.map (fun cell => some (cell.text, cell.hint)), true,
        if block.length = 0 then rc else vs.length + block.length, 0, false⟩ := by
  induction block generalizing vs rc with
  | nil => simp
  | cons c bs ih =>
    have hr0 : c.row = 0 := by simpa using (hb 0 (by simp)).1
    have hc0 : c.column = vs.length := by simpa using (hb 0 (by simp)).2
    rw [List.foldl_cons]
    have hstep : rmStep ⟨vs, true, rc, 0, false⟩ c =
        ⟨vs ++ [some (c.text, c.hint)], true, vs.length + 1, 0, false⟩ := by
      simp only [rmStep, hr0, hc0]
      simp only [reduceIte, Nat.zero_mul, Nat.zero_add, Nat.mul_zero, Bool.true_eq_false,
        false_and, if_false, resizeDef_length]
      rw [if_pos (Nat.lt_succ_self _)]
      rw [resizeDef_succ, List.set_append_right _ _ (Nat.le_refl _), Nat.sub_self]
      rfl
    rw [hstep, ih (vs ++ [some (c.text, c.hint)]) (vs.length + 1) ?_]
    · simp only [List.map_cons, List.length_cons, List.length_append, List.length_cons,
        List.length_nil]
      rw [List.append_assoc]
      simp only [List.singleton_append]
      have : ¬ (bs.length + 1 = 0) := by omega
      rcases Nat.eq_zero_or_pos bs.length with hz | hp
      · simp [hz]
      · rw [if_neg (by omega), if_neg this]
        have : vs.length + 1 + bs.length = vs.length + (bs.length + 1) := by omega
        rw [this]
    · intro i h
      have := hb (i + 1) (by simpa using Nat.succ_lt_succ h)
      simp only [List.get_cons_succ] at this
      refine ⟨this.1, ?_⟩
      rw [this.2]
      simp only [List.length_append, List.length_cons, List.length_nil]
      omega

/-- Positions of distinct emitted cells have distinct row-major indices
when all columns are below `k`. -/
theorem parse_ok_rm_distinct {useEmpty : Bool} {data : List Char} {cells : List Cell}
    (hok : parse useEmpty data = .ok cells) (k : Nat)
    (hcol : ∀ cell ∈ cells, cell.column < k) :
    cells.Pairwise (fun a b => rmIdx k a ≠ rmIdx k b) := by
  have hpw := chainFrom_pairwise (parse_ok_chain hok)
  rw [List.pairwise_map] at hpw
  refine List.Pairwise.imp_of_mem ?_ hpw
  intro a b ha hb hlex heq
  obtain ⟨hrow', hcol'⟩ := flatIdx_inj (hcol a ha) (hcol b hb) heq
  simp only [lexLt] at hlex
  omega

/-- The emitted cells of a successful parse split into the row-0 block —
at columns `0, 1, …` in order — and a remainder of cells in rows ≥ 1
that, when non-empty, starts with the cell at `(1, 0)`. -/
theorem parse_ok_split {useEmpty : Bool} {data : List Char} {cells : List Cell}
    (hok : parse useEmpty data = .ok cells) :
    ∃ block rest, cells = block ++ rest ∧
      (∀ i (h : i < block.length), (block.get ⟨i, h⟩).row = 0 ∧
        (block.get ⟨i, h⟩).column = i) ∧
      (∀ cell ∈ rest, 1 ≤ cell.row) ∧
      (rest = [] ∨ ∃ c1 rest', rest = c1 :: rest' ∧ c1.row = 1 ∧ c1.column = 0) := by
  obtain ⟨b, restp, hsplit, hb, hrest, hrow⟩ := chainFrom_split_row (parse_ok_chain hok)
  obtain ⟨block, rest, hcells, hmapb, hmaprest⟩ := List.map_eq_append_iff.mp hsplit
  refine ⟨block, rest, hcells, ?_, ?_, ?_⟩
  · intro i h
    subst hmapb
    have hbi := hb i (by simpa using h)
    simp only [List.get_eq_getElem, List.getElem_map] at hbi
    refine ⟨?_, ?_⟩
    · simpa using congrArg Prod.fst hbi
    · simpa using congrArg Prod.snd hbi
  · intro cell hc
    have hmem : (cell.row, cell.column) ∈ restp := by
      rw [← hmaprest]
      exact List.mem_map_of_mem _ hc
    exact hrow _ hmem
  · rcases hrest with hnil | hchain
    · left
      rw [hnil] at hmaprest
      exact List.map_eq_nil_iff.mp hmaprest
    · match rest, hmaprest with
      | [], _ => exact Or.inl rfl
      | c1 :: rest', hmaprest =>
        right
        refine ⟨c1, rest', rfl, ?_⟩
        rw [List.map_cons] at hmaprest
        rw [← hmaprest] at hchain
        have := chainFrom_head hchain
        have h1 : c1.row = 1 := by
          have := congrArg Prod.fst this
          simpa using this
        have h2 : c1.column = 0 := by
          have := congrArg Prod.snd this
          simpa using this
        exact ⟨h1, h2⟩

/-- Under the block/remainder split, the inferred width `row0Width` is
the length of the row-0 block. -/
theorem row0Width_of_split {block rest : List Cell}
    (hb : ∀ cell ∈ block, cell.row = 0) (hr : ∀ cell ∈ rest, 1 ≤ cell.row) :
    row0Width (block ++ rest) = block.length := by
  rw [row0Width, List.filter_append]
  have h1 : block.filter (fun cell => cell.row == 0) = block :=
    List.filter_eq_self.mpr (fun a ha => by simpa using hb a ha)
  have h2 : rest.filter (fun cell => cell.row == 0) = [] :=
    List.filter_eq_nil_iff.mpr (fun a ha => by
      have := hr a ha
      simp only [beq_iff_eq]
      omega)
  rw [h1, h2]
  simp

/-- An all-row-0 cell list spans at most one data row. -/
theorem numRows_le_one {cells : List Cell} (h : ∀ cell ∈ cells, cell.row = 0) :
    numRows cells ≤ 1 := by
  induction cells with
  | nil => simp [numRows]
  | cons c cs ih =>
    have hc := h c (List.mem_cons_self _ _)
    have := ih (fun x hx => h x (List.mem_cons_of_mem _ hx))
    simp only [numRows, List.foldr_cons] at *
    omega

/-- **C6.** Row-major flat assembly (`Parser::parseToVectorRowMajor`),
corrected.  (1) An explicit positive column count `k` bounding every
emitted column is trusted for indexing: the call succeeds with no
out-of-bounds write, every cell lands at flat index `row * k + column`,
every slot no cell maps to is default-initialized (`none`) — so a
too-large `k` leaves gaps — and for non-empty input the returned
information has `columns = k` and `rows = size / k` with the final size
`numRows * k`.  (2) When the column count is omitted it is inferred as
the width of row 0, but the inference is committed only by the first
row-1 cell: with at least two rows (and all columns within the row-0
width) every cell lands at `row * row0Width + column` and the
information reports `columns = row0Width` and `rows = size / row0Width`.
(3) With a single data row the inference never commits, so the returned
information reports `columns = 0` and `rows = 0` even though the
container holds all the row's cells — not the claimed inferred width.
(4) A too-small explicit count does not truncate or overlap data into
fewer slots: the first cell whose column reaches the count produces an
unchecked `std::vector::operator[]` write past the end (undefined
behavior, the `oob` marker), shown concretely by input `a,b` under an
explicit count of 1. -/
theorem parseToVectorRowMajor_assembly (useEmpty : Bool) (data : List Char)
    (old : List (Option Payload)) (cells : List Cell)
    (hok : parse useEmpty data = .ok cells) :
    (∀ k : Nat, 0 < k → (∀ cell ∈ cells, cell.column < k) →
      (parseToVectorRowMajorRun useEmpty data old (some k)).error = none ∧
      (parseToVectorRowMajorRun useEmpty data old (some k)).oob = false ∧
      (∀ cell ∈ cells,
        (parseToVectorRowMajorRun useEmpty data old
          (some k)).values[cell.row * k + cell.column]? =
          some (some (cell.text, cell.hint))) ∧
      (∀ i, i < (parseToVectorRowMajorRun useEmpty data old (some k)).values.length →
        (∀ cell ∈ cells, cell.row * k + cell.column ≠ i) →
        (parseToVectorRowMajorRun useEmpty data old (some k)).values[i]? = some none) ∧
      (cells ≠ [] →
        (parseToVectorRowMajorRun useEmpty data old (some k)).info.columns = k ∧
        (parseToVectorRowMajorRun useEmpty data old (some k)).info.rows =
          (parseToVectorRowMajorRun useEmpty data old (some k)).values.length / k ∧
        (parseToVectorRowMajorRun useEmpty data old (some k)).values.length =
          numRows cells * k)) ∧
    ((∃ cell ∈ cells, cell.row = 1) →
      (∀ cell ∈ cells, cell.column < row0Width cells) →
      (parseToVectorRowMajorRun useEmpty data old none).error = none ∧
      (parseToVectorRowMajorRun useEmpty data old none).oob = false ∧
      (parseToVectorRowMajorRun useEmpty data old none).info.columns = row0Width cells ∧
      (parseToVectorRowMajorRun useEmpty data old none).info.rows =
        (parseToVectorRowMajorRun useEmpty data old none).values.length /
          row0Width cells ∧
      (parseToVectorRowMajorRun useEmpty data old none).values.length =
        numRows cells * row0Width cells ∧
      (∀ cell ∈ cells,
        (parseToVectorRowMajorRun useEmpty data old
          none).values[cell.row * row0Width cells + cell.column]? =
          some (some (cell.text, cell.hint)))) ∧
    ((∀ cell ∈ cells, cell.row = 0) → cells ≠ [] →
      (parseToVectorRowMajorRun useEmpty data old none).error = none ∧
      (parseToVectorRowMajorRun useEmpty data old none).info.columns = 0 ∧
      (parseToVectorRowMajorRun useEmpty data old none).info.rows = 0 ∧
      (parseToVectorRowMajorRun useEmpty data old none).values.length = cells.length) ∧
    (parseToVectorRowMajorRun true "a,b".toList [] (some 1)).oob = true := by
  refine ⟨?_, ?_, ?_, by decide⟩
  · intro k hk hcol
    obtain ⟨vs', heq, hlen, huntouched⟩ := rmFold_committed cells [] 0 k false hcol
    have hrun : parseToVectorRowMajorRun useEmpty data old (some k) =
        if vs' = [] then ⟨none, vs', { order := .RowMajor }, false⟩
        else ⟨none, vs', ⟨if k = 0 then 0 else vs'.length / k, k, .RowMajor⟩, false⟩ := by
      simp only [parseToVectorRowMajorRun, hok, Option.isNone_some, Option.getD_some]
      rw [heq]
    have hlen' : vs'.length = rmNeeded k cells := by
      rw [hlen]; simp
    have hval : (parseToVectorRowMajorRun useEmpty data old (some k)).values = vs' := by
      rw [hrun]; split <;> rfl
    have herr : (parseToVectorRowMajorRun useEmpty data old (some k)).error = none := by
      rw [hrun]; split <;> rfl
    have hoob : (parseToVectorRowMajorRun useEmpty data old (some k)).oob = false := by
      rw [hrun]; split <;> rfl
    refine ⟨herr, hoob, ?_, ?_, ?_⟩
    · intro cell hc
      rw [hval]
      have hidx : cell.row * k + cell.column < vs'.length := by
        rw [hlen', rmNeeded_eq]
        have h1 := mem_le_numRows hc
        have h2 := hcol cell hc
        have h3 : (cell.row + 1) * k ≤ numRows cells * k := Nat.mul_le_mul_right k h1
        have hexp : (cell.row + 1) * k = cell.row * k + k := by ring
        omega
      rw [getElem?_eq_some_getD none hidx]
      have hland := rmFold_committed_lands cells [] 0 k false hcol
        (parse_ok_rm_distinct hok k hcol) hc
      rw [heq] at hland
      simp only at hland
      rw [show cell.row * k + cell.column = rmIdx k cell from rfl, hland]
    · intro i hi hno
      rw [hval] at hi ⊢
      rw [getElem?_eq_some_getD none hi]
      have hu := huntouched i (fun cell hc => by simpa [rmIdx] using hno cell hc)
      rw [hu]
      simp
    · intro hne
      have hlen2 : vs'.length = numRows cells * k := by rw [hlen', rmNeeded_eq]
      have hpos : 0 < vs'.length := by
        rw [hlen2]
        exact Nat.mul_pos (numRows_pos hne) hk
      have hvne : vs' ≠ [] := by
        intro h
        rw [h] at hpos
        simp at hpos
      rw [hrun, if_neg hvne]
      refine ⟨rfl, ?_, hlen2⟩
      show (if k = 0 then 0 else vs'.length / k) = vs'.length / k
      rw [if_neg (Nat.pos_iff_ne_zero.mp hk)]
  · intro h2 hcol
    obtain ⟨block, rest, hcells, hbidx, hrrow, hralt⟩ := parse_ok_split hok
    have hbmem : ∀ cell ∈ block, cell.row = 0 := by
      intro cell hc
      obtain ⟨⟨i, hi⟩, hgi⟩ := List.mem_iff_get.mp hc
      rw [← hgi]
      exact (hbidx i hi).1
    have hw : row0Width cells = block.length := by
      rw [hcells]
      exact row0Width_of_split hbmem hrrow
    obtain ⟨c1, hc1mem, hc1row⟩ := h2
    have hc1rest : c1 ∈ rest := by
      rw [hcells] at hc1mem
      rcases List.mem_append.mp hc1mem with hb | hr
      · exact absurd (hbmem c1 hb) (by omega)
      · exact hr
    rcases hralt with hnil | ⟨c1h, rest', hrest_eq, hc1hrow, hc1hcol⟩
    · rw [hnil] at hc1rest
      cases hc1rest
    have hwpos : 0 < block.length := by
      have := hcol c1 hc1mem
      rw [hw] at this
      omega
    have hfold1 : block.foldl rmStep ⟨[], true, 0, 0, false⟩ =
        ⟨block.map (fun cell => some (cell.text, cell.hint)), true,
          block.length, 0, false⟩ := by
      have hbne : block ≠ [] := List.length_pos.mp hwpos
      have := rmFold_block block [] 0 (by
        intro i h
        have := hbidx i h
        simpa using this)
      simpa [hbne] using this
    have hcolrest : ∀ cell ∈ rest, cell.column < block.length := by
      intro cell hc
      have := hcol cell (by rw [hcells]; exact List.mem_append_right _ hc)
      rw [hw] at this
      exact this
    have hfold2 : rest.foldl rmStep
        ⟨block.map (fun cell => some (cell.text, cell.hint)), true,
          block.length, 0, false⟩ =
        rest.foldl rmStep
        ⟨block.map (fun cell => some (cell.text, cell.hint)), false,
          block.length, block.length, false⟩ := by
      rw [hrest_eq, List.foldl_cons, List.foldl_cons, rmStep_commit _ _ _ _ _ hc1hrow]
    obtain ⟨vs', heq, hlen, huntouched⟩ := rmFold_committed rest
      (block.map (fun cell => some (cell.text, cell.hint))) block.length block.length
      false hcolrest
    have heqfull : cells.foldl rmStep ⟨[], true, 0, 0, false⟩ =
        ⟨vs', false, block.length, block.length, false⟩ := by
      rw [hcells, List.foldl_append, hfold1, hfold2, heq]
    have h2r : 2 ≤ numRows rest := by
      have := mem_le_numRows hc1rest
      omega
    have hlen2 : vs'.length = numRows rest * block.length := by
      rw [hlen, List.length_map, rmNeeded_eq]
      have hle : block.length ≤ numRows rest * block.length := by
        calc block.length = 1 * block.length := (Nat.one_mul _).symm
        _ ≤ numRows rest * block.length := Nat.mul_le_mul_right _ (by omega)
      omega
    have hnr : numRows cells = numRows rest := by
      rw [hcells, numRows_append]
      have := numRows_le_one hbmem
      omega
    have hrun : parseToVectorRowMajorRun useEmpty data old none =
        if vs' = [] then ⟨none, vs', { order := .RowMajor }, false⟩
        else ⟨none, vs', ⟨if block.length = 0 then 0 else vs'.length / block.length,
          block.length, .RowMajor⟩, false⟩ := by
      simp only [parseToVectorRowMajorRun, hok, Option.isNone_none, Option.getD_none]
      rw [heqfull]
    have hvne : vs' ≠ [] := by
      intro h
      rw [h] at hlen2
      simp only [List.length_nil] at hlen2
      have := Nat.mul_pos (by omega : 0 < numRows rest) hwpos
      omega
    rw [hrun, if_neg hvne]
    have hcol' : ∀ cell ∈ cells, cell.column < block.length := by
      intro cell hc
      have := hcol cell hc
      rw [hw] at this
      exact this
    refine ⟨rfl, rfl, hw.symm ▸ rfl, ?_, ?_, ?_⟩
    · show (if block.length = 0 then 0 else vs'.length / block.length) =
        vs'.length / row0Width cells
      rw [if_neg (Nat.pos_iff_ne_zero.mp hwpos), hw]
    · show vs'.length = numRows cells * row0Width cells
      rw [hlen2, hnr, hw]
    · intro cell hc
      show vs'[cell.row * row0Width cells + cell.column]? =
        some (some (cell.text, cell.hint))
      rw [hw]
      have hidx : cell.row * block.length + cell.column < vs'.length := by
        rw [hlen2, ← hnr]
        have hr1 := mem_le_numRows hc
        have hc1 := hcol' cell hc
        have h3 : (cell.row + 1) * block.length ≤ numRows cells * block.length :=
          Nat.mul_le_mul_right _ hr1
        have hexp : (cell.row + 1) * block.length =
            cell.row * block.length + block.length := by ring
        omega
      rw [getElem?_eq_some_getD none hidx]
      have hdist := parse_ok_rm_distinct hok block.length hcol'
      rw [hcells] at hdist
      obtain ⟨pb, pr, _⟩ := List.pairwise_append.mp hdist
      rw [hcells] at hc
      rcases List.mem_append.mp hc with hbc | hrc
      · obtain ⟨⟨j, hj⟩, hgj⟩ := List.mem_iff_get.mp hbc
        have hrow0 : cell.row = 0 := hbmem cell hbc
        have hcolj : cell.column = j := by
          rw [← hgj]
          exact (hbidx j hj).2
        have hnorest : ∀ x ∈ rest,
            rmIdx block.length x ≠ cell.row * block.length + cell.column := by
          intro x hx
          have hx1 : 1 ≤ x.row := hrrow x hx
          have hxw : block.length ≤ x.row * block.length := by
            calc block.length = 1 * block.length := (Nat.one_mul _).symm
            _ ≤ x.row * block.length := Nat.mul_le_mul_right _ hx1
          simp only [rmIdx]
          have hsmall : cell.row * block.length + cell.column < block.length := by
            rw [hrow0, hcolj]
            simp only [Nat.zero_mul, Nat.zero_add]
            omega
          omega
        have hu := huntouched _ hnorest
        rw [hu]
        rw [List.getD_eq_getElem?_getD, List.getElem?_map]
        rw [hrow0, hcolj]
        simp only [Nat.zero_mul, Nat.zero_add]
        rw [List.getElem?_eq_getElem hj]
        simp only [Option.map_some', Option.getD_some]
        rw [show block[j] = block.get ⟨j, hj⟩ from rfl, hgj]
      · have hland := rmFold_committed_lands rest
          (block.map (fun cell => some (cell.text, cell.hint))) block.length
          block.length false hcolrest pr hrc
        rw [heq] at hland
        simp only at hland
        rw [show cell.row * block.length + cell.column =
          rmIdx block.length cell from rfl, hland]
  · intro hall hne
    obtain ⟨block, rest, hcells, hbidx, hrrow, hralt⟩ := parse_ok_split hok
    have hrestnil : rest = [] := by
      rcases rest with _ | ⟨c, cs⟩
      · rfl
      · exfalso
        have h1 := hrrow c (List.mem_cons_self _ _)
        have h0 := hall c (by
          rw [hcells]
          exact List.mem_append_right _ (List.mem_cons_self _ _))
        omega
    rw [hrestnil, List.append_nil] at hcells
    subst hcells
    have hfold : cells.foldl rmStep ⟨[], true, 0, 0, false⟩ =
        ⟨cells.map (fun cell => some (cell.text, cell.hint)), true,
          cells.length, 0, false⟩ := by
      have := rmFold_block cells [] 0 (by
        intro i h
        have := hbidx i h
        simpa using this)
      simpa [hne] using this
    have hrun : parseToVectorRowMajorRun useEmpty data old none =
        ⟨none, cells.map (fun cell => some (cell.text, cell.hint)),
          ⟨0, 0, .RowMajor⟩, false⟩ := by
      simp only [parseToVectorRowMajorRun, hok, Option.isNone_none, Option.getD_none]
      rw [hfold]
      rw [if_neg (by simpa using hne)]
      rfl
    rw [hrun]
    exact ⟨rfl, rfl, rfl, by simp⟩

/-- **C6, counterexample to the claimed inference.**  The single-row input
`a,b` with the column count omitted: parsing succeeds and the container
receives both cells, yet the returned information reports `columns = 0`
and `rows = 0` — not the claimed inferred width 2 with one row — because
the inferred count is committed only when a row-1 cell arrives. -/
theorem parseToVectorRowMajor_single_row_counterexample :
    (parseToVectorRowMajorRun true "a,b".toList [] none).error = none ∧
    (parseToVectorRowMajorRun true "a,b".toList [] none).values.length = 2 ∧
    (parseToVectorRowMajorRun true "a,b".toList [] none).info.columns = 0 ∧
    (parseToVectorRowMajorRun true "a,b".toList [] none).info.rows = 0 := by decide

/-- Witness for the corrected row-major assembly theorem at the two-row
input `a,b\nc,d` with the column count omitted: inference commits the
row-0 width. -/
theorem parseToVectorRowMajor_assembly_witness :
    (parseToVectorRowMajorRun true "a,b\nc,d".toList [] none).oob = false ∧
    (parseToVectorRowMajorRun true "a,b\nc,d".toList [] none).info.columns = 2 := by
  have h := (parseToVectorRowMajor_assembly true "a,b\nc,d".toList []
      [⟨0, 0, "a".toList, .UnquotedData⟩, ⟨0, 1, "b".toList, .UnquotedData⟩,
        ⟨1, 0, "c".toList, .UnquotedData⟩, ⟨1, 1, "d".toList, .UnquotedData⟩]
      (by decide)).2.1 (by decide) (by decide)
  refine ⟨h.2.1, ?_⟩
  rw [h.2.2.1]
  decide

end Csv

